import Mathlib

/-!
The request-cache service: a read-through HTTP response cache.

A shallow embedding of `main.go` and of the library behaviour its handler
relies on (`strconv.FormatUint`, `unicode/utf8`, `encoding/json`,
`hashstructure.Hash` with FNV-1, a key-value store with TTL, an upstream
fetcher), followed by the properties of the cache protocol.

Conventions: a Go `string` / `[]byte` is a list of bytes, each byte a natural
number below 256; a `uint64` is a natural number below `2 ^ 64`; a
`time.Duration` and an instant are integers (nanoseconds).
-/

namespace RequestCache

/-- A Go `string` or `[]byte`: its bytes in order. -/
abbrev Bytes := List Nat

/-- The bytes of an ASCII literal. -/
def ascii (s : String) : Bytes := s.toList.map Char.toNat

/-! ## `unicode/utf8` -/

namespace utf8

/-- The constant `utf8.RuneError` (U+FFFD). -/
def RuneError : Nat := 0xFFFD

/-- The constant `utf8.RuneSelf`: bytes below it are single-byte runes. -/
def RuneSelf : Nat := 0x80

/-- The constant `utf8.MaxRune`. -/
def MaxRune : Nat := 0x10FFFF

/-- Function `utf8.DecodeRune`: the first rune of `p` and its width in bytes;
`(RuneError, 0)` on empty input and `(RuneError, 1)` on an invalid encoding.
The `first` / `acceptRanges` tables are written out as ranges of the lead
byte, the masks and shifts as `%` and `*`. -/
def DecodeRune : Bytes → Nat × Nat
  | [] => (RuneError, 0)
  | p0 :: rest =>
    if p0 < 0x80 then (p0, 1)
    else if p0 < 0xC2 ∨ 0xF4 < p0 then (RuneError, 1)
    else
      let sz := if p0 < 0xE0 then 2 else if p0 < 0xF0 then 3 else 4
      let lo := if p0 = 0xE0 then 0xA0 else if p0 = 0xF0 then 0x90 else 0x80
      let hi := if p0 = 0xED then 0x9F else if p0 = 0xF4 then 0x8F else 0xBF
      if rest.length + 1 < sz then (RuneError, 1)
      else
        match rest with
        | [] => (RuneError, 1)
        | b1 :: rest1 =>
          if b1 < lo ∨ hi < b1 then (RuneError, 1)
          else if sz ≤ 2 then (p0 % 32 * 64 + b1 % 64, 2)
          else
            match rest1 with
            | [] => (RuneError, 1)
            | b2 :: rest2 =>
              if b2 < 0x80 ∨ 0xBF < b2 then (RuneError, 1)
              else if sz ≤ 3 then (p0 % 16 * 4096 + b1 % 64 * 64 + b2 % 64, 3)
              else
                match rest2 with
                | [] => (RuneError, 1)
                | b3 :: _ =>
                  if b3 < 0x80 ∨ 0xBF < b3 then (RuneError, 1)
                  else (p0 % 8 * 262144 + b1 % 64 * 4096 + b2 % 64 * 64 + b3 % 64, 4)

/-- Function `utf8.EncodeRune` / `utf8.AppendRune`: the UTF-8 encoding of a
rune; surrogates and values above `MaxRune` encode as `RuneError`. -/
def EncodeRune (r : Nat) : Bytes :=
  if r ≤ 0x7F then [r]
  else if r ≤ 0x7FF then [0xC0 + r / 64, 0x80 + r % 64]
  else if MaxRune < r ∨ (0xD800 ≤ r ∧ r ≤ 0xDFFF) then [0xEF, 0xBF, 0xBD]
  else if r ≤ 0xFFFF then [0xE0 + r / 4096, 0x80 + r / 64 % 64, 0x80 + r % 64]
  else [0xF0 + r / 262144, 0x80 + r / 4096 % 64, 0x80 + r / 64 % 64, 0x80 + r % 64]

/-- Loop of `utf8.Valid`: `skip` bytes of the current rune are still to be
passed over. -/
def validLoop : Nat → Bytes → Bool
  | _, [] => true
  | skip + 1, _ :: rest => validLoop skip rest
  | 0, b :: rest =>
    if b < RuneSelf then validLoop 0 rest
    else
      let d := DecodeRune (b :: rest)
      if d.1 = RuneError ∧ d.2 = 1 then false else validLoop (d.2 - 1) rest

/-- Function `utf8.Valid`: the bytes are a sequence of well-formed UTF-8
encodings. -/
def Valid (s : Bytes) : Bool := validLoop 0 s

end utf8

/-! ## `unicode/utf16` -/

namespace utf16

/-- Function `utf16.IsSurrogate`. -/
def IsSurrogate (r : Nat) : Bool := 0xD800 ≤ r ∧ r < 0xE000

/-- Function `utf16.DecodeRune` on a first code unit and the result of reading
a second one (`none` when there is none): the rune of a valid surrogate pair,
U+FFFD otherwise. -/
def DecodeRune (r1 : Nat) (r2 : Option Nat) : Nat :=
  match r2 with
  | some r2 =>
    if 0xD800 ≤ r1 ∧ r1 < 0xDC00 ∧ 0xDC00 ≤ r2 ∧ r2 < 0xE000 then
      (r1 - 0xD800) * 1024 + (r2 - 0xDC00) + 0x10000
    else 0xFFFD
  | none => 0xFFFD

end utf16

/-! ## `strconv.FormatUint` in base 16 -/

/-- The digit table `"0123456789abcdefghijklmnopqrstuvwxyz"` of `strconv`, on
indices below 16; there it is also the table `hex` of `encoding/json`. -/
def digits (n : Nat) : Nat := if n < 10 then 48 + n else 87 + n

/-- The power-of-two branch of `strconv.formatBits` for base 16: digits are
written from the end of a buffer while `u >= 16`, then the leading digit.
The first argument is the room left in the 65-byte buffer. -/
def formatBits : Nat → Nat → Bytes → Bytes
  | 0, _, a => a
  | i + 1, u, a =>
    if 16 ≤ u then formatBits i (u / 16) (digits (u % 16) :: a)
    else digits u :: a

/-- Function `hashToStr` of `main.go`: `strconv.FormatUint(hash, 16)`. -/
def hashToStr (hash : Nat) : Bytes := formatBits 65 hash []

/-- The value of a base-16 digit character, if it is one of `0-9a-f`. -/
def hexVal (c : Nat) : Option Nat :=
  if 48 ≤ c ∧ c ≤ 57 then some (c - 48)
  else if 97 ≤ c ∧ c ≤ 102 then some (c - 87)
  else none

/-- Base-16 reading of a string of digits `0-9a-f`, most significant first,
starting from the value `acc`. -/
def parseHexFrom : Nat → Bytes → Option Nat
  | acc, [] => some acc
  | acc, c :: rest =>
    match hexVal c with
    | some d => parseHexFrom (acc * 16 + d) rest
    | none => none

/-- Base-16 reading of a non-empty string of digits `0-9a-f`. -/
def parseHex (s : Bytes) : Option Nat :=
  match s with
  | [] => none
  | _ => parseHexFrom 0 s

/-! ## `hash/fnv` and `hashstructure.Hash` -/

/-- FNV-1, 64 bit (`fnv.New64`, the hasher `hashstructure.Hash` takes when
its options name none): the digest of the bytes written since `Reset`. Each
byte multiplies the state by the prime, then is xored into it. -/
def fnv64 (data : Bytes) : Nat :=
  data.foldl (fun h b => Nat.xor (h * 1099511628211 % 2 ^ 64) b) 14695981039346656037

/-- Little-endian bytes of a `uint64`, as `binary.Write` emits them. -/
def le64 (x : Nat) : Bytes := (List.range 8).map (fun i => x / 256 ^ i % 256)

/-- Function `hashUpdateOrdered` of hashstructure. -/
def hashUpdateOrdered (a b : Nat) : Nat := fnv64 (le64 a ++ le64 b)

/-- Function `hashUpdateUnordered` of hashstructure. -/
def hashUpdateUnordered (a b : Nat) : Nat := Nat.xor a b

/-- Function `hashFinishUnordered` of hashstructure. -/
def hashFinishUnordered (a : Nat) : Nat := fnv64 (le64 a)

/-- The type `Request` of `main.go`. -/
structure Request where
  URL : Bytes
deriving DecidableEq, Repr

/-- The type `SavedResponse` of `main.go`. -/
structure SavedResponse where
  Body : Bytes
  ContentType : Bytes
deriving DecidableEq, Repr

/-- An `error` value, by its message. -/
abbrev Error := String

/-- Function `hashstructure.Hash(request, hashstructure.FormatV2, nil)` on a
`Request`: the walk of a struct with the single exported string field `URL`
and no `hash` tag, every digest taken with FNV-1. The struct's type name is
hashed, the field contributes the ordered mix of the digests of its name and
of its value, and format V2 finishes the unordered mix after the field. No
branch of the walk fails on this type. -/
def Hash (request : Request) : Except Error Nat :=
  let h := fnv64 (ascii "Request")
  let kh := fnv64 (ascii "URL")
  let vh := fnv64 request.URL
  let fieldHash := hashUpdateOrdered kh vh
  let h := hashUpdateUnordered h fieldHash
  .ok (hashFinishUnordered h)

/-! ## `encoding/json`: writing a `SavedResponse` -/

namespace json

/-- The table `htmlSafeSet` on bytes below `utf8.RuneSelf`: printable ASCII
other than `"`, `&`, `<`, `>` and the backslash. -/
def htmlSafeSet (b : Nat) : Bool :=
  0x20 ≤ b ∧ b ≠ 0x22 ∧ b ≠ 0x26 ∧ b ≠ 0x3C ∧ b ≠ 0x3E ∧ b ≠ 0x5C

/-- One iteration of the loop of `appendString` (HTML escaping on, as
`json.Marshal` sets it) at a byte `b` followed by `rest`: the bytes appended
and the number of following bytes the iteration also consumes. Backspace and
form feed are written `\b` and `\f`, as Go 1.22 and later do; earlier releases
write `\u0008` and `\u000c`, which read back to the same bytes. -/
def appendStringStep (b : Nat) (rest : Bytes) : Bytes × Nat :=
  if b < utf8.RuneSelf then
    if htmlSafeSet b then ([b], 0)
    else if b = 0x5C ∨ b = 0x22 then ([0x5C, b], 0)
    else if b = 0x08 then ([0x5C, 0x62], 0)
    else if b = 0x0C then ([0x5C, 0x66], 0)
    else if b = 0x0A then ([0x5C, 0x6E], 0)
    else if b = 0x0D then ([0x5C, 0x72], 0)
    else if b = 0x09 then ([0x5C, 0x74], 0)
    else ([0x5C, 0x75, 0x30, 0x30, digits (b / 16), digits (b % 16)], 0)
  else
    let d := utf8.DecodeRune (b :: rest)
    if d.1 = utf8.RuneError ∧ d.2 = 1 then ([0x5C, 0x75, 0x66, 0x66, 0x66, 0x64], 0)
    else if d.1 = 0x2028 ∨ d.1 = 0x2029 then
      ([0x5C, 0x75, 0x32, 0x30, 0x32, digits (d.1 % 16)], d.2 - 1)
    else ((b :: rest).take d.2, d.2 - 1)

/-- The loop of `appendString` over the source string; `skip` counts the
bytes of the current rune still to be passed over. -/
def appendStringLoop : Nat → Bytes → Bytes
  | _, [] => []
  | skip + 1, _ :: rest => appendStringLoop skip rest
  | 0, b :: rest =>
    (appendStringStep b rest).1 ++ appendStringLoop (appendStringStep b rest).2 rest

/-- Function `appendString`: a Go string as a quoted JSON string. -/
def appendString (s : Bytes) : Bytes := 0x22 :: (appendStringLoop 0 s ++ [0x22])

/-- Function `json.Marshal` on a `SavedResponse`: an object with the members
`string` and `ContentType`, in the order of the struct's fields. It has no
failing case on this type. -/
def Marshal (response : SavedResponse) : Except Error Bytes :=
  .ok (ascii "\x7b\"string\":" ++ appendString response.Body
    ++ ascii ",\"ContentType\":" ++ appendString response.ContentType ++ ascii "\x7d")

/-! ## `encoding/json`: reading -/

/-- Function `isSpace` of the scanner. -/
def isSpace (c : Nat) : Bool := c = 0x20 ∨ c = 0x09 ∨ c = 0x0D ∨ c = 0x0A

/-- Whitespace before and after tokens is passed over. -/
def skipSpace : Bytes → Bytes
  | [] => []
  | c :: rest => if isSpace c then skipSpace rest else c :: rest

/-- A hexadecimal digit of a `\u` escape, in either case. -/
def isHex (c : Nat) : Bool :=
  (0x30 ≤ c ∧ c ≤ 0x39) ∨ (0x61 ≤ c ∧ c ≤ 0x66) ∨ (0x41 ≤ c ∧ c ≤ 0x46)

/-- Scanner states inside a string literal: `stateInString`,
`stateInStringEsc`, and `stateInStringEscU` to `stateInStringEscU123` (by the
number of hexadecimal digits still expected). -/
inductive StrState where
  | inString
  | esc
  | escU (left : Nat)
deriving DecidableEq, Repr

/-- The scanner on the bytes after an opening quote: the raw bytes up to the
closing quote and the bytes after it, or `none` on a control character, a bad
escape or the end of the input. -/
def scanString : StrState → Bytes → Option (Bytes × Bytes)
  | _, [] => none
  | .inString, c :: rest =>
    if c = 0x22 then some ([], rest)
    else if c = 0x5C then (scanString .esc rest).map (fun r => (c :: r.1, r.2))
    else if c < 0x20 then none
    else (scanString .inString rest).map (fun r => (c :: r.1, r.2))
  | .esc, c :: rest =>
    if c = 0x62 ∨ c = 0x66 ∨ c = 0x6E ∨ c = 0x72 ∨ c = 0x74 ∨ c = 0x5C ∨ c = 0x2F ∨ c = 0x22 then
      (scanString .inString rest).map (fun r => (c :: r.1, r.2))
    else if c = 0x75 then (scanString (.escU 4) rest).map (fun r => (c :: r.1, r.2))
    else none
  | .escU left, c :: rest =>
    if isHex c then
      (scanString (if left ≤ 1 then .inString else .escU (left - 1)) rest).map
        (fun r => (c :: r.1, r.2))
    else none

/-- Scanner states inside a number: `stateNeg`, `state1`, `state0`,
`stateDot`, `stateDot0`, `stateE`, `stateESign`, `stateE0`. -/
inductive NumState where
  | neg | s1 | s0 | dot | dot0 | e | eSign | e0
deriving DecidableEq, Repr

/-- A decimal digit. -/
def isDigit (c : Nat) : Bool := 0x30 ≤ c ∧ c ≤ 0x39

/-- The scanner inside a number: the bytes from the first one that is not part
of the number, or `none` when the number is cut short. -/
def scanNumber : NumState → Bytes → Option Bytes
  | .neg, [] => none
  | .neg, c :: rest =>
    if c = 0x30 then scanNumber .s0 rest
    else if 0x31 ≤ c ∧ c ≤ 0x39 then scanNumber .s1 rest
    else none
  | .s1, [] => some []
  | .s1, c :: rest =>
    if isDigit c then scanNumber .s1 rest
    else if c = 0x2E then scanNumber .dot rest
    else if c = 0x65 ∨ c = 0x45 then scanNumber .e rest
    else some (c :: rest)
  | .s0, [] => some []
  | .s0, c :: rest =>
    if c = 0x2E then scanNumber .dot rest
    else if c = 0x65 ∨ c = 0x45 then scanNumber .e rest
    else some (c :: rest)
  | .dot, [] => none
  | .dot, c :: rest => if isDigit c then scanNumber .dot0 rest else none
  | .dot0, [] => some []
  | .dot0, c :: rest =>
    if isDigit c then scanNumber .dot0 rest
    else if c = 0x65 ∨ c = 0x45 then scanNumber .e rest
    else some (c :: rest)
  | .e, [] => none
  | .e, c :: rest =>
    if c = 0x2B ∨ c = 0x2D then scanNumber .eSign rest
    else if isDigit c then scanNumber .e0 rest
    else none
  | .eSign, [] => none
  | .eSign, c :: rest => if isDigit c then scanNumber .e0 rest else none
  | .e0, [] => some []
  | .e0, c :: rest => if isDigit c then scanNumber .e0 rest else some (c :: rest)

/-- The bytes after the literal `lit`, when the input starts with it. -/
def scanLiteral : Bytes → Bytes → Option Bytes
  | [], bs => some bs
  | _ :: _, [] => none
  | l :: lit, c :: rest => if c = l then scanLiteral lit rest else none

/-- What the decoder sees of a JSON value: its kind, and for a string its raw
bytes between the quotes. -/
inductive Val where
  | str (raw : Bytes)
  | num
  | bool
  | null
  | arr
  | obj
deriving DecidableEq, Repr

/-- The constant `maxNestingDepth` of the scanner. -/
def maxNestingDepth : Nat := 10000

mutual

/-- A value starting at the first byte of the input (whitespace already
passed): its kind and the bytes after it. `depth` is the number of open
arrays and objects. The first argument bounds the recursion. -/
def scanValue : Nat → Nat → Bytes → Option (Val × Bytes)
  | 0, _, _ => none
  | _ + 1, _, [] => none
  | fuel + 1, depth, c :: rest =>
    if c = 0x7B then
      if maxNestingDepth < depth + 1 then none
      else (scanObject fuel (depth + 1) true (skipSpace rest)).map (fun r => (Val.obj, r.2))
    else if c = 0x5B then
      if maxNestingDepth < depth + 1 then none
      else (scanArray fuel (depth + 1) true (skipSpace rest)).map (fun r => (Val.arr, r))
    else if c = 0x22 then (scanString .inString rest).map (fun r => (Val.str r.1, r.2))
    else if c = 0x2D then (scanNumber .neg rest).map (fun r => (Val.num, r))
    else if c = 0x30 then (scanNumber .s0 rest).map (fun r => (Val.num, r))
    else if 0x31 ≤ c ∧ c ≤ 0x39 then (scanNumber .s1 rest).map (fun r => (Val.num, r))
    else if c = 0x74 then (scanLiteral [0x72, 0x75, 0x65] rest).map (fun r => (Val.bool, r))
    else if c = 0x66 then
      (scanLiteral [0x61, 0x6C, 0x73, 0x65] rest).map (fun r => (Val.bool, r))
    else if c = 0x6E then (scanLiteral [0x75, 0x6C, 0x6C] rest).map (fun r => (Val.null, r))
    else none

/-- The members of an object, from the first byte after `{` or after a comma
(whitespace already passed) to the closing brace: each member's raw key and
value, and the bytes after the brace. `first` says that no member was read
yet, so that the brace may come at once. -/
def scanObject : Nat → Nat → Bool → Bytes → Option (List (Bytes × Val) × Bytes)
  | 0, _, _, _ => none
  | _ + 1, _, _, [] => none
  | fuel + 1, depth, first, c :: rest =>
    if c = 0x7D ∧ first then some ([], rest)
    else if c = 0x22 then
      match scanString .inString rest with
      | none => none
      | some (key, rest1) =>
        match skipSpace rest1 with
        | [] => none
        | c1 :: rest2 =>
          if c1 = 0x3A then
            match scanValue fuel depth (skipSpace rest2) with
            | none => none
            | some (v, rest3) =>
              match skipSpace rest3 with
              | [] => none
              | c2 :: rest4 =>
                if c2 = 0x2C then
                  (scanObject fuel depth false (skipSpace rest4)).map
                    (fun r => ((key, v) :: r.1, r.2))
                else if c2 = 0x7D then some ([(key, v)], rest4)
                else none
          else none
    else none

/-- The elements of an array, from the first byte after `[` or after a comma
(whitespace already passed) to the closing bracket: the bytes after it. -/
def scanArray : Nat → Nat → Bool → Bytes → Option Bytes
  | 0, _, _, _ => none
  | _ + 1, _, _, [] => none
  | fuel + 1, depth, first, c :: rest =>
    if c = 0x5D ∧ first then some rest
    else
      match scanValue fuel depth (c :: rest) with
      | none => none
      | some (_, rest1) =>
        match skipSpace rest1 with
        | [] => none
        | c1 :: rest2 =>
          if c1 = 0x2C then scanArray fuel depth false (skipSpace rest2)
          else if c1 = 0x5D then some rest2
          else none

end

/-- The top-level value of a document, as the decoder of a struct needs it. -/
inductive Top where
  | object (members : List (Bytes × Val))
  | other (v : Val)
deriving DecidableEq, Repr

/-- Function `checkValid` together with the scan of the top-level value, with
a given bound on the recursion: whitespace, one value, whitespace, end of
input. -/
def scanTopFuel (fuel : Nat) (data : Bytes) : Option Top :=
  match skipSpace data with
  | [] => none
  | c :: rest =>
    if c = 0x7B then
      match scanObject fuel 1 true (skipSpace rest) with
      | none => none
      | some (members, rest1) =>
        if skipSpace rest1 = [] then some (.object members) else none
    else
      match scanValue fuel 0 (c :: rest) with
      | none => none
      | some (v, rest1) => if skipSpace rest1 = [] then some (.other v) else none

/-- The scan of a document. Twice the length of the input plus two bounds the
recursion: no larger bound changes the result (`scanTop_fuel_enough`). -/
def scanTop (data : Bytes) : Option Top := scanTopFuel (2 * data.length + 2) data

/-- Function `getu4`: the code unit of a `\uXXXX` escape at the start of `s`,
or `none` (the `-1` of the Go code). -/
def getu4 (s : Bytes) : Option Nat :=
  match s with
  | c0 :: c1 :: h1 :: h2 :: h3 :: h4 :: _ =>
    if c0 = 0x5C ∧ c1 = 0x75 ∧ isHex h1 ∧ isHex h2 ∧ isHex h3 ∧ isHex h4 then
      let v := fun (c : Nat) =>
        if 0x30 ≤ c ∧ c ≤ 0x39 then c - 0x30
        else if 0x61 ≤ c ∧ c ≤ 0x66 then c - 0x61 + 10
        else c - 0x41 + 10
      some (((v h1 * 16 + v h2) * 16 + v h3) * 16 + v h4)
    else none
  | _ => none

/-- One iteration of the loop of `unquoteBytes` at a byte `c` followed by
`rest`: the bytes written and the number of following bytes the iteration
also consumes, or `none` where the Go code returns `ok = false`. -/
def unquoteStep (c : Nat) (rest : Bytes) : Option (Bytes × Nat) :=
  if c = 0x5C then
    match rest with
    | [] => none
    | e :: _ =>
      if e = 0x22 ∨ e = 0x5C ∨ e = 0x2F ∨ e = 0x27 then some ([e], 1)
      else if e = 0x62 then some ([0x08], 1)
      else if e = 0x66 then some ([0x0C], 1)
      else if e = 0x6E then some ([0x0A], 1)
      else if e = 0x72 then some ([0x0D], 1)
      else if e = 0x74 then some ([0x09], 1)
      else if e = 0x75 then
        match getu4 (c :: rest) with
        | none => none
        | some rr =>
          if utf16.IsSurrogate rr then
            let dec := utf16.DecodeRune rr (getu4 (rest.drop 5))
            if dec ≠ 0xFFFD then some (utf8.EncodeRune dec, 11)
            else some (utf8.EncodeRune 0xFFFD, 5)
          else some (utf8.EncodeRune rr, 5)
      else none
  else if c = 0x22 ∨ c < 0x20 then none
  else if c < utf8.RuneSelf then some ([c], 0)
  else
    let d := utf8.DecodeRune (c :: rest)
    some (utf8.EncodeRune d.1, d.2 - 1)

/-- The loop of `unquoteBytes`; `skip` counts the bytes of the current escape
or rune still to be passed over. -/
def unquoteLoop : Nat → Bytes → Option Bytes
  | _, [] => some []
  | skip + 1, _ :: rest => unquoteLoop skip rest
  | 0, c :: rest =>
    match unquoteStep c rest with
    | none => none
    | some (out, skip) => (unquoteLoop skip rest).map (fun t => out ++ t)

/-- The first loop of `unquoteBytes`: the number of leading bytes that need no
unquoting, up to the first backslash, quote, control character or invalid
UTF-8; `skip` counts the bytes of the current rune still to be passed
over. -/
def cleanPrefix : Nat → Bytes → Nat
  | _, [] => 0
  | skip + 1, _ :: rest => cleanPrefix skip rest + 1
  | 0, c :: rest =>
    if c = 0x5C ∨ c = 0x22 ∨ c < 0x20 then 0
    else if c < utf8.RuneSelf then cleanPrefix 0 rest + 1
    else
      let d := utf8.DecodeRune (c :: rest)
      if d.1 = utf8.RuneError ∧ d.2 = 1 then 0 else cleanPrefix (d.2 - 1) rest + 1

/-- Function `unquoteBytes` on the raw bytes between the quotes of a string
literal: when no byte needs unquoting the bytes are returned as they are;
otherwise the clean prefix is copied and the loop runs on what follows it,
replacing escapes and coercing invalid UTF-8 to U+FFFD. -/
def unquoteBytes (raw : Bytes) : Option Bytes :=
  if cleanPrefix 0 raw = raw.length then some raw
  else (unquoteLoop 0 (raw.drop (cleanPrefix 0 raw))).map
    (fun t => raw.take (cleanPrefix 0 raw) ++ t)

/-- Function `foldRune` on the runes that matter when a key is compared with
an ASCII field name: the only runes outside ASCII whose case-fold orbit holds
an ASCII letter are U+017F (with `S`) and U+212A (with `K`). Every other rune
outside ASCII folds to a rune outside ASCII and is left as it is here. -/
def foldRune (r : Nat) : Nat :=
  if r = 0x17F then 0x53 else if r = 0x212A then 0x4B else r

/-- One iteration of the loop of `appendFoldedName`. -/
def foldStep (c : Nat) (rest : Bytes) : Bytes × Nat :=
  if c < utf8.RuneSelf then
    (if 0x61 ≤ c ∧ c ≤ 0x7A then [c - 0x20] else [c], 0)
  else
    let d := utf8.DecodeRune (c :: rest)
    (utf8.EncodeRune (foldRune d.1), d.2 - 1)

/-- The loop of `appendFoldedName`. -/
def foldLoop : Nat → Bytes → Bytes
  | _, [] => []
  | skip + 1, _ :: rest => foldLoop skip rest
  | 0, c :: rest => (foldStep c rest).1 ++ foldLoop (foldStep c rest).2 rest

/-- Function `foldName`: the case-folded form under which a key is looked up
among the fields of a struct. -/
def foldName (name : Bytes) : Bytes := foldLoop 0 name

/-- The errors of `json.Unmarshal`: a `SyntaxError` of the scanner, or the
first `UnmarshalTypeError` saved while decoding. -/
inductive UnmarshalError where
  | malformed
  | mismatch
deriving DecidableEq, Repr

/-- The decoder at a member whose key names a field of kind string, which
holds `cur` so far: a string literal sets the field, `null` leaves it, any
other value saves an `UnmarshalTypeError`. The Go decoder goes on through the
remaining members and returns the saved error at the end; here the error is
returned at once, the value decoded so far being dropped either way. -/
def storeString (cur : Bytes) (v : Val) : Except UnmarshalError Bytes :=
  match v with
  | .str raw =>
    match unquoteBytes raw with
    | some s => .ok s
    | none => .error .malformed
  | .null => .ok cur
  | _ => .error .mismatch

/-- The decoder over the members of an object read into a `Request`: the key
is unquoted and compared with the field name `url`, exactly or under case
folding; members with other keys are passed over. -/
def decodeRequest : List (Bytes × Val) → Request → Except UnmarshalError Request
  | [], r => .ok r
  | (key, v) :: ms, r =>
    match unquoteBytes key with
    | none => .error .malformed
    | some k =>
      if foldName k = foldName (ascii "url") then
        match storeString r.URL v with
        | .ok s => decodeRequest ms { r with URL := s }
        | .error e => .error e
      else decodeRequest ms r

/-- The decoder over the members of an object read into a `SavedResponse`,
whose fields are named `string` and `ContentType` by their tags. -/
def decodeSavedResponse :
    List (Bytes × Val) → SavedResponse → Except UnmarshalError SavedResponse
  | [], r => .ok r
  | (key, v) :: ms, r =>
    match unquoteBytes key with
    | none => .error .malformed
    | some k =>
      if foldName k = foldName (ascii "string") then
        match storeString r.Body v with
        | .ok s => decodeSavedResponse ms { r with Body := s }
        | .error e => .error e
      else if foldName k = foldName (ascii "ContentType") then
        match storeString r.ContentType v with
        | .ok s => decodeSavedResponse ms { r with ContentType := s }
        | .error e => .error e
      else decodeSavedResponse ms r

/-- Function `json.Unmarshal(data, &request)` for a `Request` holding `into`:
the decoded value, or the error returned. An object fills the struct, `null`
leaves it as it is, and any other value is an `UnmarshalTypeError`. -/
def UnmarshalRequest (data : Bytes) (into : Request) : Except UnmarshalError Request :=
  match scanTop data with
  | none => .error .malformed
  | some (.object members) => decodeRequest members into
  | some (.other .null) => .ok into
  | some (.other _) => .error .mismatch

/-- Function `json.Unmarshal(data, &savedResponse)` for a `SavedResponse`
holding `into`. -/
def UnmarshalSavedResponse (data : Bytes) (into : SavedResponse) :
    Except UnmarshalError SavedResponse :=
  match scanTop data with
  | none => .error .malformed
  | some (.object members) => decodeSavedResponse members into
  | some (.other .null) => .ok into
  | some (.other _) => .error .mismatch

end json

/-! ## The collaborators of the handler -/

namespace redis

/-- The errors of a store command: the sentinel `redis.Nil` of an absent key,
or any other error. -/
inductive Err where
  | Nil
  | other (msg : String)
deriving DecidableEq, Repr

/-- The part of `*redis.Client` the handler uses, over store states `σ`:
`Get(ctx, key).Result()` and `Set(ctx, key, value, expiration).Err()`. -/
structure Client (σ : Type) where
  Get : σ → Bytes → σ × Except Err Bytes
  Set : σ → Bytes → Bytes → Int → σ × Option Err

end redis

namespace http

/-- What `http.Get` hands back when the exchange completes: the status code,
the header (key and first value) and the outcome of reading the body to the
end. -/
structure Response where
  StatusCode : Nat
  Header : List (Bytes × Bytes)
  Body : Except Error Bytes

/-- Method `Header.Get`: the first value under the key, the empty string when
there is none. -/
def headerGet (header : List (Bytes × Bytes)) (key : Bytes) : Bytes :=
  match header.find? (fun kv => kv.1 = key) with
  | some kv => kv.2
  | none => []

/-- Method `Header.Set`: the value under the key is replaced. -/
def headerSet (header : List (Bytes × Bytes)) (key value : Bytes) : List (Bytes × Bytes) :=
  (key, value) :: header.filter (fun kv => kv.1 ≠ key)

/-- An `http.ResponseWriter`: the header map, the status code once the header
has been written, and the body written so far. `failing` makes `Write` return
an error after the header went out, as on a connection the client has left. -/
structure ResponseWriter where
  header : List (Bytes × Bytes)
  status : Option Nat
  body : Bytes
  failing : Bool

/-- A writer nothing has been written to, on a working connection. -/
def newWriter : ResponseWriter := { header := [], status := none, body := [], failing := false }

/-- Method `WriteHeader`: the status code is fixed by the first call. -/
def ResponseWriter.WriteHeader (w : ResponseWriter) (code : Nat) : ResponseWriter :=
  match w.status with
  | some _ => w
  | none => { w with status := some code }

/-- Method `Write`: an implicit `WriteHeader(200)` when no header has been
written, then the data. -/
def ResponseWriter.Write (w : ResponseWriter) (data : Bytes) : ResponseWriter × Option Error :=
  let w1 := w.WriteHeader 200
  if w1.failing then (w1, some "write failed")
  else ({ w1 with body := w1.body ++ data }, none)

/-- The incoming `*http.Request`, by the outcome of `io.ReadAll(r.Body)`. -/
structure Request where
  Body : Except Error Bytes

end http

/-- What the handler does to the outside world, in order. -/
inductive Effect where
  | redisGet (key : Bytes)
  | redisSet (key value : Bytes) (expiration : Int)
  | httpGet (url : Bytes)
deriving DecidableEq, Repr

/-- The state around the handler: the store behind the client, and the effects
performed so far (latest first). -/
structure World (σ : Type) where
  store : σ
  effects : List Effect

/-- The upstream network as `http.Get` sees it: for a URL, either an error or
a response. -/
abbrev Upstream := Bytes → Except Error http.Response

/-- The type `Handler` of `main.go`. -/
structure Handler (σ : Type) where
  Expiry : Int
  Redis : redis.Client σ

/-! ## `main.go` -/

/-- Function `writeError` of `main.go`. -/
def writeError (_err : Error) (w : http.ResponseWriter) : http.ResponseWriter :=
  w.WriteHeader 500

/-- Function `writeResponse` of `main.go`. -/
def writeResponse (response : SavedResponse) (w : http.ResponseWriter) : http.ResponseWriter :=
  let w1 := { w with header := http.headerSet w.header (ascii "Content-Type") response.ContentType }
  match w1.Write response.Body with
  | (w2, some err) => writeError ("error writing response: " ++ err) w2
  | (w2, none) => w2

/-- Function `makeRequest` of `main.go`. -/
def makeRequest {σ : Type} (net : Upstream) (request : Request) (s : World σ) :
    World σ × Except Error SavedResponse :=
  let s1 := { s with effects := Effect.httpGet request.URL :: s.effects }
  match net request.URL with
  | .error err => (s1, .error ("error making request: " ++ err))
  | .ok resp =>
    match resp.Body with
    | .error err => (s1, .error ("error reading request response: " ++ err))
    | .ok body =>
      let contentType := http.headerGet resp.Header (ascii "Content-Type")
      (s1, .ok { Body := body, ContentType := contentType })

/-- Method `Handler.getCache` of `main.go`. -/
def Handler.getCache {σ : Type} (h : Handler σ) (hash : Nat) (s : World σ) :
    World σ × (SavedResponse × Bool × Option Error) :=
  let r := h.Redis.Get s.store (hashToStr hash)
  let s1 : World σ := { store := r.1, effects := Effect.redisGet (hashToStr hash) :: s.effects }
  match r.2 with
  | .error .Nil => (s1, ({ Body := [], ContentType := [] }, false, none))
  | .error (.other msg) =>
    (s1, ({ Body := [], ContentType := [] }, false, some ("error retrieving cache: " ++ msg)))
  | .ok val =>
    match json.UnmarshalSavedResponse val { Body := [], ContentType := [] } with
    | .error _ =>
      (s1, ({ Body := [], ContentType := [] }, false, some "error unmarshalling cache"))
    | .ok savedResponse => (s1, (savedResponse, true, none))

/-- Method `Handler.setCache` of `main.go`. -/
def Handler.setCache {σ : Type} (h : Handler σ) (hash : Nat) (response : SavedResponse)
    (s : World σ) : World σ × Option Error :=
  match json.Marshal response with
  | .error err => (s, some ("error marshaling response as JSON: " ++ err))
  | .ok data =>
    let r := h.Redis.Set s.store (hashToStr hash) data h.Expiry
    let s1 : World σ :=
      { store := r.1, effects := Effect.redisSet (hashToStr hash) data h.Expiry :: s.effects }
    match r.2 with
    | some _ => (s1, some "error caching response")
    | none => (s1, none)

/-- Method `Handler.request` of `main.go`: the reply written to `w` and the
world afterwards. The log lines are left out. -/
def Handler.request {σ : Type} (h : Handler σ) (net : Upstream) (w : http.ResponseWriter)
    (r : http.Request) (s : World σ) : http.ResponseWriter × World σ :=
  match r.Body with
  | .error err => (writeError ("error reading supplie request body: " ++ err) w, s)
  | .ok body =>
    match json.UnmarshalRequest body { URL := [] } with
    | .error _ => (writeError "error unmarshalling supplied request body" w, s)
    | .ok request =>
      match Hash request with
      | .error err => (writeError ("error hashing supplied request: " ++ err) w, s)
      | .ok hash =>
        let c := h.getCache hash s
        if c.2.2.1 then (writeResponse c.2.1 w, c.1)
        else
          let m := makeRequest net request c.1
          match m.2 with
          | .error err => (writeError ("error making specified request: " ++ err) w, m.1)
          | .ok savedResponse =>
            let p := h.setCache hash savedResponse m.1
            (writeResponse savedResponse w, p.1)

/-! ## A store with expiry -/

/-- A key-value store with expiry: the current instant and, latest first, the
entries written, each with the instant at which it expires. -/
structure TTLStore where
  now : Int
  entries : List (Bytes × Bytes × Int)

/-- The entry last written under a key, if it has not expired. -/
def TTLStore.lookup (st : TTLStore) (key : Bytes) : Option Bytes :=
  match st.entries.find? (fun e => e.1 = key) with
  | some e => if st.now < e.2.2 then some e.2.1 else none
  | none => none

/-- The client of a `TTLStore`: `Get` answers with the value last `Set` under
the key until its TTL has elapsed and with `redis.Nil` otherwise; `Set`
writes the value with the expiry `now + expiration`. Neither fails. -/
def ttlClient : redis.Client TTLStore where
  Get := fun st key =>
    match st.lookup key with
    | some v => (st, .ok v)
    | none => (st, .error .Nil)
  Set := fun st key value expiration =>
    ({ st with entries := (key, value, st.now + expiration) :: st.entries }, none)

/-- The number of upstream fetches among the effects. -/
def fetchCount (effects : List Effect) : Nat :=
  (effects.filter (fun e => match e with | .httpGet _ => true | _ => false)).length

/-- The store writes among the effects, latest first. -/
def storeWrites (effects : List Effect) : List (Bytes × Bytes × Int) :=
  effects.filterMap (fun e => match e with | .redisSet k v t => some (k, v, t) | _ => none)

/-- The keys of the store commands among the effects, latest first. -/
def storeKeys (effects : List Effect) : List Bytes :=
  effects.filterMap (fun e =>
    match e with
    | .redisGet k => some k
    | .redisSet k _ _ => some k
    | .httpGet _ => none)


/-! ## Fixtures for the concrete scenarios -/

/-- A store that cannot be reached: every command fails with a transport
error. -/
def downClient : redis.Client Unit where
  Get := fun st _ => (st, .error (.other "dial tcp: connection refused"))
  Set := fun st _ _ _ => (st, some (.other "dial tcp: connection refused"))

/-- The cache lifetime `main` configures: one minute, in nanoseconds. -/
def oneMinute : Int := 60000000000

/-- An upstream with three resources: a text at `http://u/a`, a 404 without a
content type at `http://u/missing`, one byte that is not UTF-8 at
`http://u/bin`; every other URL cannot be fetched. -/
def exampleUpstream : Upstream := fun url =>
  if url = ascii "http://u/a" then
    .ok { StatusCode := 200, Header := [(ascii "Content-Type", ascii "text/plain")],
          Body := .ok (ascii "A") }
  else if url = ascii "http://u/missing" then
    .ok { StatusCode := 404, Header := [], Body := .ok (ascii "not found") }
  else if url = ascii "http://u/bin" then
    .ok { StatusCode := 200, Header := [(ascii "Content-Type", ascii "image/png")],
          Body := .ok [0xFF] }
  else .error "unsupported protocol scheme or unreachable host"

/-- The handler of `main`, on a store with expiry. -/
def cacheHandler : Handler TTLStore := { Expiry := oneMinute, Redis := ttlClient }

/-- The handler of `main`, on a store that cannot be reached. -/
def offlineHandler : Handler Unit := { Expiry := oneMinute, Redis := downClient }

/-- An empty store at instant 0, nothing done yet. -/
def emptyWorld : World TTLStore := { store := { now := 0, entries := [] }, effects := [] }

/-- The fingerprint of a request: the value `Hash` returns, which it does on
every `Request`. -/
def hashOf (request : Request) : Nat :=
  match Hash request with
  | .ok hash => hash
  | .error _ => 0

/-- The store key of a URL: the rendering of the fingerprint of the request
for it. -/
def cacheKey (url : Bytes) : Bytes := hashToStr (hashOf { URL := url })

/-- A store seeded with a response for `http://u/x` under the key of that
URL. -/
def seededWorld : World TTLStore :=
  { store :=
      { now := 0,
        entries := [(cacheKey (ascii "http://u/x"),
          ascii "\x7b\"string\":\"hello\",\"ContentType\":\"text/plain\"\x7d", oneMinute)] },
    effects := [] }

open utf8 json

/-- Reading a header key back after `Set` gives the value set. -/
theorem headerGet_headerSet (header : List (Bytes × Bytes)) (key value : Bytes) :
    http.headerGet (http.headerSet header key value) key = value := by
  simp [http.headerGet, http.headerSet]

/-- The reply `writeResponse` leaves on a fresh writer. -/
theorem writeResponse_newWriter (response : SavedResponse) :
    (writeResponse response http.newWriter).status = some 200 ∧
      (writeResponse response http.newWriter).body = response.Body ∧
      http.headerGet (writeResponse response http.newWriter).header (ascii "Content-Type")
        = response.ContentType := by
  simp [writeResponse, http.newWriter, http.ResponseWriter.Write, http.ResponseWriter.WriteHeader,
    headerGet_headerSet]

/-- The reply `writeError` leaves on a fresh writer: status 500 and no body. -/
theorem writeError_newWriter (err : Error) :
    (writeError err http.newWriter).status = some 500 ∧
      (writeError err http.newWriter).body = [] := by
  simp [writeError, http.newWriter, http.ResponseWriter.WriteHeader]

/-- The one effect of `getCache` is the `Get` of the key. -/
theorem getCache_effects {σ : Type} (h : Handler σ) (hash : Nat) (s : World σ) :
    (h.getCache hash s).1.effects = Effect.redisGet (hashToStr hash) :: s.effects := by
  unfold Handler.getCache
  rcases hget : (h.Redis.Get s.store (hashToStr hash)).2 with e | val
  · cases e <;> simp [hget]
  · rcases hun : json.UnmarshalSavedResponse val { Body := [], ContentType := [] } with e | v
      <;> simp [hget, hun]

/-- A stored value that deserialises is a hit. -/
theorem getCache_hit {σ : Type} (h : Handler σ) (hash : Nat) (s : World σ) (val : Bytes)
    (saved : SavedResponse)
    (hget : (h.Redis.Get s.store (hashToStr hash)).2 = .ok val)
    (hval : json.UnmarshalSavedResponse val { Body := [], ContentType := [] } = .ok saved) :
    (h.getCache hash s).2 = (saved, true, none) := by
  simp [Handler.getCache, hget, hval]

/-- A failed `Get`, or a stored value that does not deserialise, is not a hit. -/
theorem getCache_miss {σ : Type} (h : Handler σ) (hash : Nat) (s : World σ)
    (hmiss : (∃ e, (h.Redis.Get s.store (hashToStr hash)).2 = .error e) ∨
      ∃ val e, (h.Redis.Get s.store (hashToStr hash)).2 = .ok val ∧
        json.UnmarshalSavedResponse val { Body := [], ContentType := [] } = .error e) :
    (h.getCache hash s).2.2.1 = false := by
  rcases hmiss with ⟨e, he⟩ | ⟨val, e, hv, hu⟩
  · cases e <;> simp [Handler.getCache, he]
  · simp [Handler.getCache, hv, hu]

/-- The one effect of `makeRequest` is the fetch of the URL. -/
theorem makeRequest_effects {σ : Type} (net : Upstream) (request : Request) (s : World σ) :
    (makeRequest net request s).1.effects = Effect.httpGet request.URL :: s.effects := by
  unfold makeRequest
  rcases hn : net request.URL with e | resp
  · simp
  · rcases hb : resp.Body with e | b <;> simp [hb]

/-- A completed exchange gives the body and the `Content-Type` header. -/
theorem makeRequest_ok {σ : Type} (net : Upstream) (request : Request) (s : World σ)
    (resp : http.Response) (b : Bytes) (hnet : net request.URL = .ok resp)
    (hbody : resp.Body = .ok b) :
    (makeRequest net request s).2 =
      .ok { Body := b, ContentType := http.headerGet resp.Header (ascii "Content-Type") } := by
  simp [makeRequest, hnet, hbody]

/-- The one effect of `setCache` is the `Set` of the serialised response under
the key, with the handler's expiry. -/
theorem setCache_effects {σ : Type} (h : Handler σ) (hash : Nat) (response : SavedResponse)
    (s : World σ) :
    ∃ data, json.Marshal response = .ok data ∧
      (h.setCache hash response s).1.effects
        = Effect.redisSet (hashToStr hash) data h.Expiry :: s.effects := by
  refine ⟨_, rfl, ?_⟩
  unfold Handler.setCache
  simp only [json.Marshal]
  split <;> rfl


/-- The miss path with a completed fetch: the reply is `writeResponse` of the
fetched response and the effects are `Get`, fetch, `Set`. -/
theorem request_miss_fetched {σ : Type} (h : Handler σ) (net : Upstream) (s : World σ)
    (w : http.ResponseWriter)
    (body : Bytes) (request : Request) (hash : Nat) (resp : http.Response) (b : Bytes)
    (hdec : json.UnmarshalRequest body { URL := [] } = .ok request)
    (hhash : Hash request = .ok hash)
    (hmiss : (h.getCache hash s).2.2.1 = false)
    (hnet : net request.URL = .ok resp) (hbody : resp.Body = .ok b) :
    (h.request net w { Body := .ok body } s).1
        = writeResponse
            { Body := b, ContentType := http.headerGet resp.Header (ascii "Content-Type") } w ∧
      ∃ data,
        json.Marshal
            { Body := b, ContentType := http.headerGet resp.Header (ascii "Content-Type") }
          = .ok data ∧
        (h.request net w { Body := .ok body } s).2.effects
          = Effect.redisSet (hashToStr hash) data h.Expiry ::
              Effect.httpGet request.URL :: Effect.redisGet (hashToStr hash) :: s.effects := by
  have hm := makeRequest_ok net request (h.getCache hash s).1 resp b hnet hbody
  have hme := makeRequest_effects net request (h.getCache hash s).1
  obtain ⟨data, hdata, hse⟩ := setCache_effects h hash
    { Body := b, ContentType := http.headerGet resp.Header (ascii "Content-Type") }
    (makeRequest net request (h.getCache hash s).1).1
  refine ⟨?_, data, hdata, ?_⟩
  · simp [Handler.request, hdec, hhash, hmiss, hm]
  · simp [Handler.request, hdec, hhash, hmiss, hm, hse, hme, getCache_effects]

/-- Function `writeError` writes the header with status 500, whatever the
error. -/
theorem writeError_eq (err : Error) (w : http.ResponseWriter) :
    writeError err w = w.WriteHeader 500 := rfl

/-- The miss path with a failed fetch: status 500, and the effects are `Get`
and the fetch. -/
theorem request_miss_fetch_failed {σ : Type} (h : Handler σ) (net : Upstream) (s : World σ)
    (w : http.ResponseWriter)
    (body : Bytes) (request : Request) (hash : Nat)
    (hdec : json.UnmarshalRequest body { URL := [] } = .ok request)
    (hhash : Hash request = .ok hash)
    (hmiss : (h.getCache hash s).2.2.1 = false)
    (hfail : (∃ e, net request.URL = .error e) ∨
      ∃ resp e, net request.URL = .ok resp ∧ resp.Body = .error e) :
    (h.request net w { Body := .ok body } s).1 = w.WriteHeader 500 ∧
      (h.request net w { Body := .ok body } s).2.effects
        = Effect.httpGet request.URL :: Effect.redisGet (hashToStr hash) :: s.effects := by
  have hme := makeRequest_effects net request (h.getCache hash s).1
  have hm : ∀ sr, (makeRequest net request (h.getCache hash s).1).2 ≠ .ok sr := by
    intro sr
    rcases hfail with ⟨e, he⟩ | ⟨resp, e, hr, hb⟩
    · simp [makeRequest, he]
    · simp [makeRequest, hr, hb]
  rcases hmk : (makeRequest net request (h.getCache hash s).1).2 with e | sr
  · simp [Handler.request, hdec, hhash, hmiss, hmk, hme, getCache_effects, writeError_eq]
  · exact absurd hmk (hm sr)

/-- The hit path: the reply is `writeResponse` of the cached response and the
only effect is the `Get`. -/
theorem request_hit {σ : Type} (h : Handler σ) (net : Upstream) (s : World σ)
    (w : http.ResponseWriter)
    (body : Bytes) (request : Request) (hash : Nat)
    (hdec : json.UnmarshalRequest body { URL := [] } = .ok request)
    (hhash : Hash request = .ok hash)
    (hhit : (h.getCache hash s).2.2.1 = true) :
    (h.request net w { Body := .ok body } s).1 = writeResponse (h.getCache hash s).2.1 w ∧
      (h.request net w { Body := .ok body } s).2.effects
        = Effect.redisGet (hashToStr hash) :: s.effects := by
  simp [Handler.request, hdec, hhash, hhit, getCache_effects]

/-- A body the decoder rejects: status 500, and the world is left as it was. -/
theorem request_decode_failed {σ : Type} (h : Handler σ) (net : Upstream) (s : World σ)
    (w : http.ResponseWriter) (body : Bytes) (e : json.UnmarshalError)
    (hdec : json.UnmarshalRequest body { URL := [] } = .error e) :
    (h.request net w { Body := .ok body } s).1 = w.WriteHeader 500 ∧
      (h.request net w { Body := .ok body } s).2 = s := by
  simp [Handler.request, hdec, writeError_eq]


/-- The three shapes the effects of a decoded request can take. -/
theorem request_effects_cases {σ : Type} (h : Handler σ) (net : Upstream) (s : World σ)
    (w : http.ResponseWriter) (body : Bytes) (request : Request) (hash : Nat)
    (hdec : json.UnmarshalRequest body { URL := [] } = .ok request)
    (hhash : Hash request = .ok hash) :
    (h.request net w { Body := .ok body } s).2.effects
        = Effect.redisGet (hashToStr hash) :: s.effects ∨
      (h.request net w { Body := .ok body } s).2.effects
        = Effect.httpGet request.URL :: Effect.redisGet (hashToStr hash) :: s.effects ∨
      ∃ data, (h.request net w { Body := .ok body } s).2.effects
        = Effect.redisSet (hashToStr hash) data h.Expiry ::
            Effect.httpGet request.URL :: Effect.redisGet (hashToStr hash) :: s.effects := by
  rcases hc : (h.getCache hash s).2.2.1 with _ | _
  · rcases hn : net request.URL with e | resp
    · exact Or.inr (Or.inl
        (request_miss_fetch_failed h net s w body request hash hdec hhash hc
          (Or.inl ⟨e, hn⟩)).2)
    · rcases hb : resp.Body with e | b
      · exact Or.inr (Or.inl
          (request_miss_fetch_failed h net s w body request hash hdec hhash hc
            (Or.inr ⟨resp, e, hn, hb⟩)).2)
      · obtain ⟨-, data, -, he⟩ :=
          request_miss_fetched h net s w body request hash resp b hdec hhash hc hn hb
        exact Or.inr (Or.inr ⟨data, he⟩)
  · exact Or.inl (request_hit h net s w body request hash hdec hhash hc).2


/-- The value of the digit character written for a number below 16 is that
number. -/
theorem hexVal_digits (n : Nat) (hn : n < 16) : hexVal (digits n) = some n := by
  unfold hexVal digits
  split_ifs <;> (congr 1; omega)

/-- The digit characters below 16 are `0-9` and `a-f`. -/
theorem digits_range (n : Nat) (hn : n < 16) :
    (48 ≤ digits n ∧ digits n ≤ 57) ∨ (97 ≤ digits n ∧ digits n ≤ 102) := by
  unfold digits
  split_ifs <;> omega

/-- Only the digit 0 is written as the character `0`. -/
theorem digits_eq_zero_char (n : Nat) (hn : n < 16) : digits n = 48 ↔ n = 0 := by
  unfold digits
  split_ifs <;> omega

/-- The digit loop of `formatBits`: for `u` below `16 ^ k` with room for `k`
digits, it puts in front of the buffer at most `k` digits that read back
as `u`, with a leading `0` only for 0. -/
theorem formatBits_spec : ∀ (k i u : Nat) (a : Bytes), 1 ≤ k → k ≤ i → u < 16 ^ k →
    ∃ ds, formatBits i u a = ds ++ a ∧ 1 ≤ ds.length ∧ ds.length ≤ k ∧
      (∀ c ∈ ds, (48 ≤ c ∧ c ≤ 57) ∨ (97 ≤ c ∧ c ≤ 102)) ∧
      (∀ acc rest, parseHexFrom acc (ds ++ rest)
        = parseHexFrom (acc * 16 ^ ds.length + u) rest) ∧
      (u = 0 → ds = [48]) ∧ (u ≠ 0 → ds.head? ≠ some 48) := by
  intro k
  induction k with
  | zero => intro i u a h1; omega
  | succ k ih =>
    intro i u a _ hki hu
    obtain ⟨i, rfl⟩ : ∃ j, i = j + 1 := ⟨i - 1, by omega⟩
    by_cases h16 : 16 ≤ u
    · have hk : 1 ≤ k := by
        rcases Nat.eq_zero_or_pos k with hk0 | hk0
        · subst hk0; simp at hu; omega
        · exact hk0
      have hu' : u / 16 < 16 ^ k := by
        rw [Nat.div_lt_iff_lt_mul (by norm_num)]
        rw [pow_succ] at hu; exact hu
      obtain ⟨ds, hds, hl1, hl2, hc, hp, _, hnz⟩ :=
        ih i (u / 16) (digits (u % 16) :: a) hk (by omega) hu'
      have hmod : u % 16 < 16 := Nat.mod_lt _ (by norm_num)
      refine ⟨ds ++ [digits (u % 16)], ?_, ?_, ?_, ?_, ?_, ?_, ?_⟩
      · simp [formatBits, h16, hds]
      · simp
      · simp; omega
      · intro c hcm
        rcases List.mem_append.mp hcm with hcm | hcm
        · exact hc c hcm
        · simp at hcm; subst hcm; exact digits_range _ hmod
      · intro acc rest
        have : (ds ++ [digits (u % 16)]) ++ rest = ds ++ (digits (u % 16) :: rest) := by simp
        rw [this, hp]
        simp only [parseHexFrom, hexVal_digits _ hmod, List.length_append, List.length_singleton]
        congr 1
        rw [pow_succ, ← Nat.mul_assoc]
        generalize acc * 16 ^ ds.length = X
        omega
      · intro h0; omega
      · intro _
        have hne : u / 16 ≠ 0 := by
          intro h0
          have := (Nat.div_eq_zero_iff (by norm_num : 0 < 16)).mp h0
          omega
        have := hnz hne
        cases ds with
        | nil => simp at hl1
        | cons d ds => simpa using this
    · have hlt : u < 16 := by omega
      refine ⟨[digits u], ?_, ?_, ?_, ?_, ?_, ?_, ?_⟩
      · simp [formatBits, h16]
      · simp
      · simp
      · intro c hcm
        simp at hcm; subst hcm; exact digits_range _ hlt
      · intro acc rest
        simp [parseHexFrom, hexVal_digits _ hlt]
      · intro h0; subst h0; rfl
      · intro hne
        simp only [List.head?_cons, ne_eq, Option.some.injEq]
        rw [digits_eq_zero_char _ hlt]; exact hne


/-- Decoding at a lead byte of a two-byte encoding. -/
theorem DecodeRune_two (p0 b1 : Nat) (t : Bytes) (h0 : 0xC2 ≤ p0) (h1 : p0 < 0xE0) :
    DecodeRune (p0 :: b1 :: t)
      = if b1 < 0x80 ∨ 0xBF < b1 then (RuneError, 1) else (p0 % 32 * 64 + b1 % 64, 2) := by
  have a1 : ¬ p0 < 128 := by omega
  have a2 : ¬ (p0 < 194 ∨ 244 < p0) := by omega
  have a3 : p0 ≠ 224 := by omega
  have a4 : p0 ≠ 240 := by omega
  have a5 : p0 ≠ 237 := by omega
  have a6 : p0 ≠ 244 := by omega
  simp [DecodeRune, a1, a2, a3, a4, a5, a6, h1]

/-- A lead byte of a longer encoding followed by one byte only is invalid. -/
theorem DecodeRune_three_short (p0 b1 : Nat) (h0 : 0xE0 ≤ p0) (h1 : p0 ≤ 0xF4) :
    DecodeRune [p0, b1] = (RuneError, 1) := by
  have a1 : ¬ p0 < 128 := by omega
  have a2 : ¬ (p0 < 194 ∨ 244 < p0) := by omega
  have a3 : ¬ p0 < 224 := by omega
  simp only [DecodeRune, a1, a2, a3, if_false]
  split_ifs <;> simp at * 

/-- Decoding at a lead byte of a three-byte encoding. -/
theorem DecodeRune_three (p0 b1 b2 : Nat) (t : Bytes) (h0 : 0xE0 ≤ p0) (h1 : p0 < 0xF0) :
    DecodeRune (p0 :: b1 :: b2 :: t)
      = if b1 < (if p0 = 0xE0 then 0xA0 else 0x80) ∨ (if p0 = 0xED then 0x9F else 0xBF) < b1
          then (RuneError, 1)
        else if b2 < 0x80 ∨ 0xBF < b2 then (RuneError, 1)
        else (p0 % 16 * 4096 + b1 % 64 * 64 + b2 % 64, 3) := by
  have a1 : ¬ p0 < 128 := by omega
  have a2 : ¬ (p0 < 194 ∨ 244 < p0) := by omega
  have a3 : ¬ p0 < 224 := by omega
  have a4 : p0 ≠ 240 := by omega
  have a6 : p0 ≠ 244 := by omega
  simp [DecodeRune, a1, a2, a3, a4, a6, h1]

/-- A lead byte of a four-byte encoding followed by two bytes only is invalid. -/
theorem DecodeRune_four_short (p0 b1 b2 : Nat) (h0 : 0xF0 ≤ p0) (h1 : p0 ≤ 0xF4) :
    DecodeRune [p0, b1, b2] = (RuneError, 1) := by
  have a1 : ¬ p0 < 128 := by omega
  have a2 : ¬ (p0 < 194 ∨ 244 < p0) := by omega
  have a3 : ¬ p0 < 224 := by omega
  have a4 : ¬ p0 < 240 := by omega
  simp only [DecodeRune, a1, a2, a3, a4, if_false]
  split_ifs <;> simp at * 

/-- Decoding at a lead byte of a four-byte encoding. -/
theorem DecodeRune_four (p0 b1 b2 b3 : Nat) (t : Bytes) (h0 : 0xF0 ≤ p0) (h1 : p0 ≤ 0xF4) :
    DecodeRune (p0 :: b1 :: b2 :: b3 :: t)
      = if b1 < (if p0 = 0xF0 then 0x90 else 0x80) ∨ (if p0 = 0xF4 then 0x8F else 0xBF) < b1
          then (RuneError, 1)
        else if b2 < 0x80 ∨ 0xBF < b2 then (RuneError, 1)
        else if b3 < 0x80 ∨ 0xBF < b3 then (RuneError, 1)
        else (p0 % 8 * 262144 + b1 % 64 * 4096 + b2 % 64 * 64 + b3 % 64, 4) := by
  have a1 : ¬ p0 < 128 := by omega
  have a2 : ¬ (p0 < 194 ∨ 244 < p0) := by omega
  have a3 : ¬ p0 < 224 := by omega
  have a4 : ¬ p0 < 240 := by omega
  have a5 : p0 ≠ 224 := by omega
  have a6 : p0 ≠ 237 := by omega
  simp [DecodeRune, a1, a2, a3, a4, a5, a6]

/-- A single byte outside ASCII is invalid. -/
theorem DecodeRune_single (p0 : Nat) (h0 : 0x80 ≤ p0) : DecodeRune [p0] = (RuneError, 1) := by
  have a1 : ¬ p0 < 128 := by omega
  simp only [DecodeRune, a1, if_false]
  split_ifs <;> simp at *

/-- Continuation bytes, `0xC0`, `0xC1` and bytes above `0xF4` are invalid lead
bytes. -/
theorem DecodeRune_bad_lead (p0 : Nat) (rest : Bytes) (h0 : 0x80 ≤ p0)
    (h1 : p0 < 0xC2 ∨ 0xF4 < p0) : DecodeRune (p0 :: rest) = (RuneError, 1) := by
  simp [DecodeRune, h1, show ¬ p0 < 128 by omega]

/-- What a successful multi-byte decoding looks like. -/
theorem DecodeRune_valid (p0 : Nat) (rest : Bytes) (hp : 0x80 ≤ p0)
    (hv : ¬ ((DecodeRune (p0 :: rest)).1 = RuneError ∧ (DecodeRune (p0 :: rest)).2 = 1)) :
    ∃ chunk tail, rest = chunk ++ tail ∧ chunk.length + 1 = (DecodeRune (p0 :: rest)).2 ∧
      EncodeRune (DecodeRune (p0 :: rest)).1 = p0 :: chunk ∧
      (∀ c ∈ chunk, 0x80 ≤ c) ∧
      0x80 ≤ (DecodeRune (p0 :: rest)).1 ∧
      ∀ Z, DecodeRune (p0 :: (chunk ++ Z)) = DecodeRune (p0 :: rest) := by
  by_cases h1 : p0 < 0xC2 ∨ 0xF4 < p0
  · exact absurd (by rw [DecodeRune_bad_lead p0 rest hp h1]; exact ⟨rfl, rfl⟩) hv
  by_cases h2 : p0 < 0xE0
  · -- two bytes
    match rest with
    | [] => exact absurd (by rw [DecodeRune_single p0 hp]; exact ⟨rfl, rfl⟩) hv
    | b1 :: t =>
      have hd := DecodeRune_two p0 b1 t (by omega) h2
      by_cases hb : b1 < 0x80 ∨ 0xBF < b1
      · rw [if_pos hb] at hd
        exact absurd (by rw [hd]; exact ⟨rfl, rfl⟩) hv
      · rw [if_neg hb] at hd
        refine ⟨[b1], t, rfl, by rw [hd]; rfl, ?_, ?_, ?_, ?_⟩
        · rw [hd]; simp only [EncodeRune]
          rw [if_neg (by omega), if_pos (by omega)]
          congr 1
          · omega
          · congr 1; omega
        · intro c hc; simp at hc; omega
        · rw [hd]; simp only; omega
        · intro Z
          rw [hd]
          have := DecodeRune_two p0 b1 Z (by omega) h2
          rw [if_neg hb] at this
          simpa using this
  by_cases h3 : p0 < 0xF0
  · match rest with
    | [] => exact absurd (by rw [DecodeRune_single p0 hp]; exact ⟨rfl, rfl⟩) hv
    | [b1] =>
      exact absurd (by rw [DecodeRune_three_short p0 b1 (by omega) (by omega)]; exact ⟨rfl, rfl⟩) hv
    | b1 :: b2 :: t =>
      have hd := DecodeRune_three p0 b1 b2 t (by omega) h3
      by_cases hb : b1 < (if p0 = 0xE0 then 0xA0 else 0x80) ∨ (if p0 = 0xED then 0x9F else 0xBF) < b1
      · rw [if_pos hb] at hd
        exact absurd (by rw [hd]; exact ⟨rfl, rfl⟩) hv
      rw [if_neg hb] at hd
      by_cases hb2 : b2 < 0x80 ∨ 0xBF < b2
      · rw [if_pos hb2] at hd
        exact absurd (by rw [hd]; exact ⟨rfl, rfl⟩) hv
      rw [if_neg hb2] at hd
      have hb1 : 0x80 ≤ b1 ∧ b1 ≤ 0xBF ∧ (p0 = 0xE0 → 0xA0 ≤ b1) ∧ (p0 = 0xED → b1 ≤ 0x9F) := by
        split_ifs at hb <;> omega
      refine ⟨[b1, b2], t, rfl, by rw [hd]; rfl, ?_, ?_, ?_, ?_⟩
      · rw [hd]; simp only [EncodeRune, MaxRune]
        rw [if_neg (by omega), if_neg (by omega), if_neg (by omega), if_pos (by omega)]
        congr 1
        · omega
        · congr 1
          · omega
          · congr 1; omega
      · intro c hc; simp at hc; omega
      · rw [hd]; simp only; omega
      · intro Z
        rw [hd]
        have := DecodeRune_three p0 b1 b2 Z (by omega) h3
        rw [if_neg hb, if_neg hb2] at this
        simpa using this
  · match rest with
    | [] => exact absurd (by rw [DecodeRune_single p0 hp]; exact ⟨rfl, rfl⟩) hv
    | [b1] =>
      exact absurd (by rw [DecodeRune_three_short p0 b1 (by omega) (by omega)]; exact ⟨rfl, rfl⟩) hv
    | [b1, b2] =>
      exact absurd (by rw [DecodeRune_four_short p0 b1 b2 (by omega) (by omega)]; exact ⟨rfl, rfl⟩) hv
    | b1 :: b2 :: b3 :: t =>
      have hd := DecodeRune_four p0 b1 b2 b3 t (by omega) (by omega)
      by_cases hb : b1 < (if p0 = 0xF0 then 0x90 else 0x80) ∨ (if p0 = 0xF4 then 0x8F else 0xBF) < b1
      · rw [if_pos hb] at hd
        exact absurd (by rw [hd]; exact ⟨rfl, rfl⟩) hv
      rw [if_neg hb] at hd
      by_cases hb2 : b2 < 0x80 ∨ 0xBF < b2
      · rw [if_pos hb2] at hd
        exact absurd (by rw [hd]; exact ⟨rfl, rfl⟩) hv
      rw [if_neg hb2] at hd
      by_cases hb3 : b3 < 0x80 ∨ 0xBF < b3
      · rw [if_pos hb3] at hd
        exact absurd (by rw [hd]; exact ⟨rfl, rfl⟩) hv
      rw [if_neg hb3] at hd
      have hb1 : 0x80 ≤ b1 ∧ b1 ≤ 0xBF ∧ (p0 = 0xF0 → 0x90 ≤ b1) ∧ (p0 = 0xF4 → b1 ≤ 0x8F) := by
        split_ifs at hb <;> omega
      refine ⟨[b1, b2, b3], t, rfl, by rw [hd]; rfl, ?_, ?_, ?_, ?_⟩
      · rw [hd]; simp only [EncodeRune, MaxRune]
        rw [if_neg (by omega), if_neg (by omega), if_neg (by omega), if_neg (by omega)]
        congr 1
        · omega
        · congr 1
          · omega
          · congr 1
            · omega
            · congr 1; omega
      · intro c hc; simp at hc; omega
      · rw [hd]; simp only; omega
      · intro Z
        rw [hd]
        have := DecodeRune_four p0 b1 b2 b3 Z (by omega) (by omega)
        rw [if_neg hb, if_neg hb2, if_neg hb3] at this
        simpa using this

/-- Bytes passed over by `appendStringLoop`. -/
theorem appendStringLoop_skip : ∀ (a Z : Bytes),
    appendStringLoop a.length (a ++ Z) = appendStringLoop 0 Z
  | [], Z => rfl
  | _ :: a, Z => by simpa [appendStringLoop] using appendStringLoop_skip a Z

/-- Bytes passed over by `unquoteLoop`. -/
theorem unquoteLoop_skip : ∀ (a Z : Bytes), unquoteLoop a.length (a ++ Z) = unquoteLoop 0 Z
  | [], Z => rfl
  | _ :: a, Z => by simpa [unquoteLoop] using unquoteLoop_skip a Z

/-- Bytes passed over by `validLoop`. -/
theorem validLoop_skip : ∀ (a Z : Bytes), validLoop a.length (a ++ Z) = validLoop 0 Z
  | [], Z => rfl
  | _ :: a, Z => by simpa [validLoop] using validLoop_skip a Z

/-- Bytes that are neither a quote, a backslash nor a control character pass
through the string scanner. -/
theorem scanString_plain : ∀ (chunk Y : Bytes),
    (∀ c ∈ chunk, 0x20 ≤ c ∧ c ≠ 0x22 ∧ c ≠ 0x5C) →
    scanString .inString (chunk ++ Y)
      = (scanString .inString Y).map (fun r => (chunk ++ r.1, r.2))
  | [], Y, _ => by simp
  | c :: chunk, Y, h => by
    have hc := h c (by simp)
    have ih := scanString_plain chunk Y (fun d hd => h d (by simp [hd]))
    have e : scanString .inString (c :: (chunk ++ Y))
        = (scanString .inString (chunk ++ Y)).map (fun r => (c :: r.1, r.2)) := by
      simp only [scanString, if_neg hc.2.1, if_neg hc.2.2, if_neg (show ¬ c < 0x20 by omega)]
    rw [List.cons_append, e, ih, Option.map_map]
    rfl

/-- The digit characters are hexadecimal digits for the scanner. -/
theorem isHex_digits (n : Nat) (hn : n < 16) : isHex (digits n) = true := by
  unfold isHex digits
  split_ifs <;> simp <;> omega

/-- Function `getu4` on an escape written with the digit table. -/
theorem getu4_digits (n1 n2 n3 n4 : Nat) (Z : Bytes) (h1 : n1 < 16) (h2 : n2 < 16)
    (h3 : n3 < 16) (h4 : n4 < 16) :
    getu4 (0x5C :: 0x75 :: digits n1 :: digits n2 :: digits n3 :: digits n4 :: Z)
      = some (((n1 * 16 + n2) * 16 + n3) * 16 + n4) := by
  have v : ∀ n, n < 16 →
      (if 0x30 ≤ digits n ∧ digits n ≤ 0x39 then digits n - 0x30
        else if 0x61 ≤ digits n ∧ digits n ≤ 0x66 then digits n - 0x61 + 10
        else digits n - 0x41 + 10) = n := by
    intro n hn
    unfold digits
    split_ifs <;> omega
  simp only [getu4, isHex_digits _ h1, isHex_digits _ h2, isHex_digits _ h3, isHex_digits _ h4,
    and_self, if_true, v _ h1, v _ h2, v _ h3, v _ h4]

/-- A `\uXXXX` escape written with the digit table passes the string scanner. -/
theorem scanString_u (n1 n2 n3 n4 : Nat) (Y : Bytes) (h1 : n1 < 16) (h2 : n2 < 16)
    (h3 : n3 < 16) (h4 : n4 < 16) :
    scanString .inString
        ([0x5C, 0x75, digits n1, digits n2, digits n3, digits n4] ++ Y)
      = (scanString .inString Y).map
          (fun r => ([0x5C, 0x75, digits n1, digits n2, digits n3, digits n4] ++ r.1, r.2)) := by
  simp [scanString, isHex_digits _ h1, isHex_digits _ h2, isHex_digits _ h3, isHex_digits _ h4,
    Option.map_map, Function.comp_def]

/-- Function `unquoteBytes` at a `\uXXXX` escape, written with the digit
table, of a code unit that is not a surrogate: the encoding of the code
unit. -/
theorem unquoteLoop_u (n1 n2 n3 n4 : Nat) (Z : Bytes) (h1 : n1 < 16) (h2 : n2 < 16)
    (h3 : n3 < 16) (h4 : n4 < 16)
    (hs : ¬ (0xD800 ≤ ((n1 * 16 + n2) * 16 + n3) * 16 + n4 ∧
      ((n1 * 16 + n2) * 16 + n3) * 16 + n4 < 0xE000)) :
    unquoteLoop 0 ([0x5C, 0x75, digits n1, digits n2, digits n3, digits n4] ++ Z)
      = (unquoteLoop 0 Z).map
          (fun t => EncodeRune (((n1 * 16 + n2) * 16 + n3) * 16 + n4) ++ t) := by
  have hg := getu4_digits n1 n2 n3 n4 Z h1 h2 h3 h4
  have hskip : unquoteLoop 5 (0x75 :: digits n1 :: digits n2 :: digits n3 :: digits n4 :: Z)
      = unquoteLoop 0 Z :=
    unquoteLoop_skip [0x75, digits n1, digits n2, digits n3, digits n4] Z
  simp only [List.cons_append, List.nil_append, unquoteLoop, unquoteStep, utf16.IsSurrogate]
  simp [hg, hs, hskip]

/-- One iteration of `appendString` at an ASCII byte writes bytes that pass
the string scanner and that `unquoteBytes` turns back into the byte. -/
theorem appendStringStep_ascii (b : Nat) (rest : Bytes) (hb : b < 0x80) :
    (∀ Y, scanString .inString ((appendStringStep b rest).1 ++ Y)
        = (scanString .inString Y).map (fun r => ((appendStringStep b rest).1 ++ r.1, r.2))) ∧
      (∀ Z, unquoteLoop 0 ((appendStringStep b rest).1 ++ Z)
        = (unquoteLoop 0 Z).map (fun t => b :: t)) := by
  have hu1 : ∀ (e : Nat) (Z : Bytes), unquoteLoop 1 (e :: Z) = unquoteLoop 0 Z := fun e Z =>
    unquoteLoop_skip [e] Z
  by_cases hs : htmlSafeSet b = true
  · have ho : (appendStringStep b rest).1 = [b] := by
      simp [appendStringStep, RuneSelf, hb, hs]
    have hs' : 0x20 ≤ b ∧ b ≠ 0x22 ∧ b ≠ 0x5C := by
      simp [htmlSafeSet] at hs; omega
    rw [ho]
    refine ⟨fun Y => scanString_plain [b] Y (by simpa using hs'), fun Z => ?_⟩
    simp [unquoteLoop, unquoteStep, RuneSelf, hb, hs'.2.1, hs'.2.2,
      show ¬ b < 32 by omega]
  by_cases h1 : b = 0x5C ∨ b = 0x22
  · have ho : (appendStringStep b rest).1 = [0x5C, b] := by
      simp [appendStringStep, RuneSelf, hb, hs, h1]
    rw [ho]
    rcases h1 with rfl | rfl <;>
      exact ⟨fun Y => by simp [scanString, Option.map_map, Function.comp_def],
        fun Z => by simp [unquoteLoop, unquoteStep, hu1]⟩
  by_cases h2 : b = 0x08
  · subst h2
    exact ⟨fun Y => by simp [appendStringStep, RuneSelf, htmlSafeSet, scanString, Option.map_map,
      Function.comp_def], fun Z => by simp [appendStringStep, RuneSelf, htmlSafeSet, unquoteLoop,
        unquoteStep, hu1]⟩
  by_cases h3 : b = 0x0C
  · subst h3
    exact ⟨fun Y => by simp [appendStringStep, RuneSelf, htmlSafeSet, scanString, Option.map_map,
      Function.comp_def], fun Z => by simp [appendStringStep, RuneSelf, htmlSafeSet, unquoteLoop,
        unquoteStep, hu1]⟩
  by_cases h4 : b = 0x0A
  · subst h4
    exact ⟨fun Y => by simp [appendStringStep, RuneSelf, htmlSafeSet, scanString, Option.map_map,
      Function.comp_def], fun Z => by simp [appendStringStep, RuneSelf, htmlSafeSet, unquoteLoop,
        unquoteStep, hu1]⟩
  by_cases h5 : b = 0x0D
  · subst h5
    exact ⟨fun Y => by simp [appendStringStep, RuneSelf, htmlSafeSet, scanString, Option.map_map,
      Function.comp_def], fun Z => by simp [appendStringStep, RuneSelf, htmlSafeSet, unquoteLoop,
        unquoteStep, hu1]⟩
  by_cases h6 : b = 0x09
  · subst h6
    exact ⟨fun Y => by simp [appendStringStep, RuneSelf, htmlSafeSet, scanString, Option.map_map,
      Function.comp_def], fun Z => by simp [appendStringStep, RuneSelf, htmlSafeSet, unquoteLoop,
        unquoteStep, hu1]⟩
  have ho : (appendStringStep b rest).1
      = [0x5C, 0x75, digits 0, digits 0, digits (b / 16), digits (b % 16)] := by
    simp [appendStringStep, RuneSelf, hb, hs, h1, h2, h3, h4, h5, h6, digits]
  have hd1 : b / 16 < 16 := by omega
  have hd2 : b % 16 < 16 := by omega
  rw [ho]
  refine ⟨fun Y => scanString_u 0 0 (b / 16) (b % 16) Y (by norm_num) (by norm_num) hd1 hd2,
    fun Z => ?_⟩
  rw [unquoteLoop_u 0 0 (b / 16) (b % 16) Z (by norm_num) (by norm_num) hd1 hd2 (by omega)]
  have hval : ((0 * 16 + 0) * 16 + b / 16) * 16 + b % 16 = b := by omega
  rw [hval]
  simp [EncodeRune, show b ≤ 127 by omega]

/-- One iteration of `appendString` on a well-formed rune writes bytes that
pass the string scanner and that `unquoteBytes` turns back into the rune's
bytes. -/
theorem appendStringStep_spec (b : Nat) (rest : Bytes)
    (hv : b < 0x80 ∨
      ¬ ((DecodeRune (b :: rest)).1 = RuneError ∧ (DecodeRune (b :: rest)).2 = 1)) :
    ∃ chunk tail, rest = chunk ++ tail ∧ (appendStringStep b rest).2 = chunk.length ∧
      (∀ Y, scanString .inString ((appendStringStep b rest).1 ++ Y)
        = (scanString .inString Y).map (fun r => ((appendStringStep b rest).1 ++ r.1, r.2))) ∧
      (∀ Z, unquoteLoop 0 ((appendStringStep b rest).1 ++ Z)
        = (unquoteLoop 0 Z).map (fun t => b :: chunk ++ t)) ∧
      validLoop 0 (b :: rest) = validLoop 0 tail := by
  by_cases hb : b < 0x80
  · refine ⟨[], rest, rfl, ?_, (appendStringStep_ascii b rest hb).1, ?_, ?_⟩
    · simp only [appendStringStep, RuneSelf, if_pos hb]
      split_ifs <;> rfl
    · simpa using (appendStringStep_ascii b rest hb).2
    · simp [validLoop, RuneSelf, hb]
  · have hv' : ¬ ((DecodeRune (b :: rest)).1 = RuneError ∧ (DecodeRune (b :: rest)).2 = 1) := by
      rcases hv with h | h
      · exact absurd h hb
      · exact h
    obtain ⟨chunk, tail, hrest, hlen, henc, hhigh, hr, hstable⟩ :=
      DecodeRune_valid b rest (by omega) hv'
    have hsz : (DecodeRune (b :: rest)).2 - 1 = chunk.length := by omega
    refine ⟨chunk, tail, hrest, ?_, ?_, ?_, ?_⟩
    · simp only [appendStringStep, RuneSelf, if_neg hb, if_neg hv']
      split_ifs <;> exact hsz
    · by_cases hls : (DecodeRune (b :: rest)).1 = 0x2028 ∨ (DecodeRune (b :: rest)).1 = 0x2029
      · have ho : (appendStringStep b rest).1
            = [0x5C, 0x75, digits 2, digits 0, digits 2, digits ((DecodeRune (b :: rest)).1 % 16)] := by
          simp [appendStringStep, RuneSelf, hb, hv', hls, digits]
        rw [ho]
        intro Y
        exact scanString_u 2 0 2 _ Y (by norm_num) (by norm_num) (by norm_num) (by omega)
      · have ho : (appendStringStep b rest).1 = b :: chunk := by
          simp only [appendStringStep, RuneSelf, if_neg hb, if_neg hv', if_neg hls]
          rw [← hlen, hrest]
          simp
        rw [ho]
        intro Y
        exact scanString_plain (b :: chunk) Y (by
          intro c hc
          rcases List.mem_cons.mp hc with rfl | hc
          · omega
          · have := hhigh c hc; omega)
    · intro Z
      by_cases hls : (DecodeRune (b :: rest)).1 = 0x2028 ∨ (DecodeRune (b :: rest)).1 = 0x2029
      · have ho : (appendStringStep b rest).1
            = [0x5C, 0x75, digits 2, digits 0, digits 2, digits ((DecodeRune (b :: rest)).1 % 16)] := by
          simp [appendStringStep, RuneSelf, hb, hv', hls, digits]
        rw [ho, unquoteLoop_u 2 0 2 _ Z (by norm_num) (by norm_num) (by norm_num) (by omega)
          (by omega)]
        have hval : ((2 * 16 + 0) * 16 + 2) * 16 + (DecodeRune (b :: rest)).1 % 16
            = (DecodeRune (b :: rest)).1 := by omega
        rw [hval, henc]
      · have ho : (appendStringStep b rest).1 = b :: chunk := by
          simp only [appendStringStep, RuneSelf, if_neg hb, if_neg hv', if_neg hls]
          rw [← hlen, hrest]
          simp
        rw [ho]
        have hstep : unquoteStep b (chunk ++ Z) = some (b :: chunk, chunk.length) := by
          have h22 : ¬ (b = 0x22 ∨ b < 0x20) := by omega
          simp only [unquoteStep, if_neg (show ¬ b = 0x5C by omega), if_neg h22, RuneSelf,
            if_neg hb, hstable Z, henc, hsz]
        have e : unquoteLoop 0 (b :: (chunk ++ Z))
            = match unquoteStep b (chunk ++ Z) with
              | none => none
              | some (out, skip) => (unquoteLoop skip (chunk ++ Z)).map (fun t => out ++ t) := rfl
        rw [List.cons_append, e, hstep]
        simp only [unquoteLoop_skip]
    · simp only [validLoop, RuneSelf, if_neg hb, if_neg hv', hsz]
      rw [hrest, validLoop_skip]

/-- The loop of `appendString` on well-formed UTF-8: its output passes the
string scanner as one literal, and `unquoteBytes` gives the source back. -/
theorem appendStringLoop_spec : ∀ (n : Nat) (s : Bytes), s.length ≤ n → validLoop 0 s = true →
    (∀ X, scanString .inString (appendStringLoop 0 s ++ 0x22 :: X)
        = some (appendStringLoop 0 s, X)) ∧
      unquoteLoop 0 (appendStringLoop 0 s) = some s := by
  intro n
  induction n with
  | zero =>
    intro s hs _
    have : s = [] := List.length_eq_zero.mp (by omega)
    subst this
    exact ⟨fun X => by simp [appendStringLoop, scanString], rfl⟩
  | succ n ih =>
    intro s hs hv
    match s with
    | [] => exact ⟨fun X => by simp [appendStringLoop, scanString], rfl⟩
    | b :: rest =>
      have hv0 : b < 0x80 ∨
          ¬ ((DecodeRune (b :: rest)).1 = RuneError ∧ (DecodeRune (b :: rest)).2 = 1) := by
        by_cases hb : b < 0x80
        · exact Or.inl hb
        · right
          intro hbad
          simp [validLoop, RuneSelf, hb, hbad] at hv
      obtain ⟨chunk, tail, hrest, hskip, hscan, hunq, hvalid⟩ := appendStringStep_spec b rest hv0
      have hl : appendStringLoop 0 (b :: rest)
          = (appendStringStep b rest).1 ++ appendStringLoop 0 tail := by
        show (appendStringStep b rest).1 ++ appendStringLoop (appendStringStep b rest).2 rest = _
        have e : appendStringLoop chunk.length rest = appendStringLoop 0 tail := by
          rw [hrest, appendStringLoop_skip]
        rw [hskip, e]
      have hlen : tail.length ≤ n := by
        have : rest.length = chunk.length + tail.length := by rw [hrest]; simp
        simp at hs; omega
      obtain ⟨ih1, ih2⟩ := ih tail hlen (by rw [← hvalid]; exact hv)
      rw [hl]
      constructor
      · intro X
        rw [List.append_assoc, hscan, ih1]
        simp
      · rw [hunq, ih2, hrest]
        simp

/-- Bytes passed over by `cleanPrefix`. -/
theorem cleanPrefix_skip : ∀ (a Z : Bytes),
    cleanPrefix a.length (a ++ Z) = a.length + cleanPrefix 0 Z
  | [], Z => by simp
  | _ :: a, Z => by
    have := cleanPrefix_skip a Z
    show cleanPrefix a.length (a ++ Z) + 1 = a.length + 1 + cleanPrefix 0 Z
    omega

/-- The loop of `unquoteBytes` at a well-formed rune outside ASCII copies the
rune's bytes. -/
theorem unquoteLoop_rune (b : Nat) (rest : Bytes) (hb : 0x80 ≤ b)
    (hv : ¬ ((DecodeRune (b :: rest)).1 = RuneError ∧ (DecodeRune (b :: rest)).2 = 1)) :
    ∃ chunk tail, rest = chunk ++ tail ∧ (DecodeRune (b :: rest)).2 - 1 = chunk.length ∧
      ∀ Z, unquoteLoop 0 (b :: (chunk ++ Z))
        = (unquoteLoop 0 Z).map (fun t => b :: chunk ++ t) := by
  obtain ⟨chunk, tail, hrest, hlen, henc, -, -, hstable⟩ := DecodeRune_valid b rest hb hv
  have hsz : (DecodeRune (b :: rest)).2 - 1 = chunk.length := by omega
  refine ⟨chunk, tail, hrest, hsz, fun Z => ?_⟩
  have hstep : unquoteStep b (chunk ++ Z) = some (b :: chunk, chunk.length) := by
    have h22 : ¬ (b = 0x22 ∨ b < 0x20) := by omega
    simp only [unquoteStep, if_neg (show ¬ b = 0x5C by omega), if_neg h22, RuneSelf,
      if_neg (show ¬ b < 0x80 by omega), hstable Z, henc, hsz]
  have e : unquoteLoop 0 (b :: (chunk ++ Z))
      = match unquoteStep b (chunk ++ Z) with
        | none => none
        | some (out, skip) => (unquoteLoop skip (chunk ++ Z)).map (fun t => out ++ t) := rfl
  rw [e, hstep]
  simp only [unquoteLoop_skip]

/-- Copying the clean prefix and running the loop on the rest is running the
loop on all of the bytes. -/
theorem unquoteLoop_cleanPrefix : ∀ (n : Nat) (s : Bytes), s.length ≤ n →
    (unquoteLoop 0 (s.drop (cleanPrefix 0 s))).map (fun t => s.take (cleanPrefix 0 s) ++ t)
      = unquoteLoop 0 s := by
  intro n
  induction n with
  | zero =>
    intro s hs
    have : s = [] := List.length_eq_zero.mp (by omega)
    subst this
    simp [cleanPrefix, unquoteLoop]
  | succ n ih =>
    intro s hs
    match s with
    | [] => simp [cleanPrefix, unquoteLoop]
    | c :: rest =>
      simp only [List.length_cons] at hs
      by_cases h1 : c = 0x5C ∨ c = 0x22 ∨ c < 0x20
      · have : cleanPrefix 0 (c :: rest) = 0 := by simp only [cleanPrefix, if_pos h1]
        rw [this]
        simp
      by_cases h2 : c < 0x80
      · have hp : cleanPrefix 0 (c :: rest) = cleanPrefix 0 rest + 1 := by
          simp only [cleanPrefix, if_neg h1, RuneSelf, if_pos h2]
        have hl : unquoteLoop 0 (c :: rest) = (unquoteLoop 0 rest).map (fun t => c :: t) := by
          have hstep : unquoteStep c rest = some ([c], 0) := by
            simp only [unquoteStep, if_neg (show ¬ c = 0x5C by omega),
              if_neg (show ¬ (c = 0x22 ∨ c < 0x20) by omega), RuneSelf, if_pos h2]
          simp only [unquoteLoop, hstep]
          rfl
        rw [hp, hl, ← ih rest (by omega)]
        simp [Option.map_map, Function.comp_def]
      by_cases h3 : (DecodeRune (c :: rest)).1 = RuneError ∧ (DecodeRune (c :: rest)).2 = 1
      · have : cleanPrefix 0 (c :: rest) = 0 := by
          simp only [cleanPrefix, if_neg h1, RuneSelf, if_neg h2, if_pos h3]
        rw [this]
        simp
      · obtain ⟨chunk, tail, hrest, hsz, hl⟩ := unquoteLoop_rune c rest (by omega) h3
        have hp : cleanPrefix 0 (c :: rest) = chunk.length + cleanPrefix 0 tail + 1 := by
          simp only [cleanPrefix, if_neg h1, RuneSelf, if_neg h2, if_neg h3, hsz]
          rw [hrest, cleanPrefix_skip]
        have hlen : tail.length ≤ n := by
          have : rest.length = chunk.length + tail.length := by rw [hrest]; simp
          omega
        rw [hp, hrest, hl tail, ← ih tail hlen]
        simp only [List.drop_succ_cons, List.take_succ_cons, Option.map_map, Function.comp_def]
        have e1 : List.drop (chunk.length + cleanPrefix 0 tail) (chunk ++ tail)
            = List.drop (cleanPrefix 0 tail) tail := by
          rw [List.drop_append]
        have e2 : List.take (chunk.length + cleanPrefix 0 tail) (chunk ++ tail)
            = chunk ++ List.take (cleanPrefix 0 tail) tail := by
          rw [List.take_append]
        rw [e1, e2]
        simp

/-- Function `unquoteBytes` is its loop run over all of the bytes. -/
theorem unquoteBytes_eq_loop (s : Bytes) : unquoteBytes s = unquoteLoop 0 s := by
  unfold unquoteBytes
  have h := unquoteLoop_cleanPrefix s.length s le_rfl
  split_ifs with hc
  · rw [← h, hc]
    simp [unquoteLoop]
  · exact h


/-- The string scanner on the output of `appendString` for well-formed UTF-8. -/
theorem appendString_scan (s : Bytes) (hv : utf8.Valid s = true) (X : Bytes) :
    scanString .inString (appendStringLoop 0 s ++ 0x22 :: X) = some (appendStringLoop 0 s, X) :=
  (appendStringLoop_spec s.length s le_rfl hv).1 X

/-- Function `unquoteBytes` undoes `appendString` on well-formed UTF-8. -/
theorem appendString_unquote (s : Bytes) (hv : utf8.Valid s = true) :
    unquoteBytes (appendStringLoop 0 s) = some s := by
  rw [unquoteBytes_eq_loop]
  exact (appendStringLoop_spec s.length s le_rfl hv).2

/-- The output of `json.Marshal` on a `SavedResponse`, byte by byte. -/
theorem Marshal_eq (c : SavedResponse) :
    json.Marshal c = .ok (0x7B :: 0x22 :: 0x73 :: 0x74 :: 0x72 :: 0x69 :: 0x6E :: 0x67 :: 0x22 ::
      0x3A :: 0x22 :: (appendStringLoop 0 c.Body ++ 0x22 :: 0x2C :: 0x22 :: 0x43 :: 0x6F :: 0x6E ::
      0x74 :: 0x65 :: 0x6E :: 0x74 :: 0x54 :: 0x79 :: 0x70 :: 0x65 :: 0x22 :: 0x3A :: 0x22 ::
      (appendStringLoop 0 c.ContentType ++ [0x22, 0x7D]))) := by
  simp [json.Marshal, appendString, ascii]

/-- The object scanner on the output of `json.Marshal`: two members with
string values. -/
theorem scanObject_marshal (f : Nat) (esc1 esc2 : Bytes)
    (h1 : ∀ X, scanString .inString (esc1 ++ 0x22 :: X) = some (esc1, X))
    (h2 : ∀ X, scanString .inString (esc2 ++ 0x22 :: X) = some (esc2, X)) :
    scanObject (f + 4) 1 true (0x22 :: 0x73 :: 0x74 :: 0x72 :: 0x69 :: 0x6E :: 0x67 :: 0x22 ::
      0x3A :: 0x22 :: (esc1 ++ 0x22 :: 0x2C :: 0x22 :: 0x43 :: 0x6F :: 0x6E ::
      0x74 :: 0x65 :: 0x6E :: 0x74 :: 0x54 :: 0x79 :: 0x70 :: 0x65 :: 0x22 :: 0x3A :: 0x22 ::
      (esc2 ++ [0x22, 0x7D])))
    = some ([([0x73, 0x74, 0x72, 0x69, 0x6E, 0x67], Val.str esc1),
        ([0x43, 0x6F, 0x6E, 0x74, 0x65, 0x6E, 0x74, 0x54, 0x79, 0x70, 0x65], Val.str esc2)], []) := by
  simp [scanObject, scanValue, scanString, skipSpace, isSpace, h1, h2]

/-- The decoder on the two members `json.Marshal` writes. -/
theorem decodeSavedResponse_marshal (esc1 esc2 body ct : Bytes)
    (h1 : unquoteBytes esc1 = some body) (h2 : unquoteBytes esc2 = some ct)
    (into : SavedResponse) :
    decodeSavedResponse
      [([0x73, 0x74, 0x72, 0x69, 0x6E, 0x67], Val.str esc1),
        ([0x43, 0x6F, 0x6E, 0x74, 0x65, 0x6E, 0x74, 0x54, 0x79, 0x70, 0x65], Val.str esc2)] into
      = .ok { Body := body, ContentType := ct } := by
  have k1 : unquoteBytes [0x73, 0x74, 0x72, 0x69, 0x6E, 0x67]
      = some [0x73, 0x74, 0x72, 0x69, 0x6E, 0x67] := by decide
  have k2 : unquoteBytes [0x43, 0x6F, 0x6E, 0x74, 0x65, 0x6E, 0x74, 0x54, 0x79, 0x70, 0x65]
      = some [0x43, 0x6F, 0x6E, 0x74, 0x65, 0x6E, 0x74, 0x54, 0x79, 0x70, 0x65] := by decide
  have f1 : foldName [0x73, 0x74, 0x72, 0x69, 0x6E, 0x67] = foldName (ascii "string") := by
    decide
  have f2 : ¬ foldName [0x43, 0x6F, 0x6E, 0x74, 0x65, 0x6E, 0x74, 0x54, 0x79, 0x70, 0x65]
      = foldName (ascii "string") := by decide
  have f3 : foldName [0x43, 0x6F, 0x6E, 0x74, 0x65, 0x6E, 0x74, 0x54, 0x79, 0x70, 0x65]
      = foldName (ascii "ContentType") := by decide
  have f4 : ¬ foldName (ascii "ContentType") = foldName (ascii "string") := by decide
  simp only [decodeSavedResponse, k1, k2, f1, f2, f3, f4, if_true, if_false, storeString, h1, h2]

/-- Reading back what `json.Marshal` wrote, for well-formed UTF-8 fields. -/
theorem Unmarshal_Marshal (c : SavedResponse) (hb : utf8.Valid c.Body = true)
    (hc : utf8.Valid c.ContentType = true) (into : SavedResponse) :
    ∃ data, json.Marshal c = .ok data ∧ json.UnmarshalSavedResponse data into = .ok c := by
  refine ⟨_, Marshal_eq c, ?_⟩
  have s1 := appendString_scan c.Body hb
  have s2 := appendString_scan c.ContentType hc
  have u1 := appendString_unquote c.Body hb
  have u2 := appendString_unquote c.ContentType hc
  have hobj := fun f => scanObject_marshal f _ _ s1 s2
  have e1 : ∀ T, skipSpace (0x7B :: T) = 0x7B :: T := fun T => rfl
  have e2 : ∀ T, skipSpace (0x22 :: T) = 0x22 :: T := fun T => rfl
  have e3 : skipSpace [] = [] := rfl
  generalize hT : (0x73 :: 0x74 :: 0x72 :: 0x69 :: 0x6E :: 0x67 :: 0x22 ::
      0x3A :: 0x22 :: (appendStringLoop 0 c.Body ++ 0x22 :: 0x2C :: 0x22 :: 0x43 :: 0x6F :: 0x6E ::
      0x74 :: 0x65 :: 0x6E :: 0x74 :: 0x54 :: 0x79 :: 0x70 :: 0x65 :: 0x22 :: 0x3A :: 0x22 ::
      (appendStringLoop 0 c.ContentType ++ [0x22, 0x7D])) : Bytes) = T at hobj ⊢
  obtain ⟨f, hf⟩ : ∃ f, 2 * (0x7B :: 0x22 :: T).length + 2 = f + 4 :=
    ⟨2 * T.length + 2, by simp only [List.length_cons]; omega⟩
  rw [UnmarshalSavedResponse, scanTop, scanTopFuel, e1]
  simp only [if_true, e2, hf, hobj f, e3]
  exact decodeSavedResponse_marshal _ _ _ _ u1 u2 into


/-- Passing over whitespace does not lengthen the input. -/
theorem skipSpace_length (bs : Bytes) : (skipSpace bs).length ≤ bs.length := by
  induction bs with
  | nil => simp [skipSpace]
  | cons c rest ih =>
    simp only [skipSpace]
    split_ifs
    · simp; omega
    · simp

/-- The string scanner consumes at least the closing quote. -/
theorem scanString_length : ∀ (bs : Bytes) (st : StrState) (raw rest : Bytes),
    scanString st bs = some (raw, rest) → rest.length < bs.length := by
  intro bs
  induction bs with
  | nil => intro st raw rest h; simp [scanString] at h
  | cons c t ih =>
    intro st raw rest h
    have key : ∀ st', (scanString st' t).map (fun r => (c :: r.1, r.2)) = some (raw, rest) →
        rest.length < (c :: t).length := by
      intro st' h'
      rcases hs : scanString st' t with _ | ⟨raw', rest'⟩
      · simp [hs] at h'
      · simp [hs] at h'
        have := ih st' raw' rest' hs
        simp; rw [← h'.2]; omega
    cases st <;> simp only [scanString] at h <;> split_ifs at h <;>
      first
        | exact key _ h
        | (simp at h; done)
        | (simp only [Option.some.injEq, Prod.mk.injEq] at h; simp [← h.2])

/-- The number scanner does not lengthen the input. -/
theorem scanNumber_length : ∀ (bs : Bytes) (st : NumState) (rest : Bytes),
    scanNumber st bs = some rest → rest.length ≤ bs.length := by
  intro bs
  induction bs with
  | nil => intro st rest h; cases st <;> simp [scanNumber] at h <;> simp [h]
  | cons c t ih =>
    intro st rest h
    have key : ∀ st', scanNumber st' t = some rest → rest.length ≤ (c :: t).length := by
      intro st' h'
      have := ih st' rest h'
      simp; omega
    cases st <;> simp only [scanNumber] at h <;> split_ifs at h <;>
      first
        | exact key _ h
        | (simp at h; done)
        | (simp at h; simp [← h])

/-- The literal scanner does not lengthen the input. -/
theorem scanLiteral_length : ∀ (lit bs rest : Bytes),
    scanLiteral lit bs = some rest → rest.length ≤ bs.length := by
  intro lit
  induction lit with
  | nil => intro bs rest h; simp [scanLiteral] at h; simp [h]
  | cons l lit ih =>
    intro bs rest h
    cases bs with
    | nil => simp [scanLiteral] at h
    | cons c t =>
      simp only [scanLiteral] at h
      split_ifs at h
      have := ih t rest h; simp; omega


/-- The value, object and array scanners consume at least one byte. -/
theorem scan_length : ∀ (f : Nat),
    (∀ d bs v rest, scanValue f d bs = some (v, rest) → rest.length < bs.length) ∧
    (∀ d first bs ms rest, scanObject f d first bs = some (ms, rest) →
      rest.length < bs.length) ∧
    (∀ d first bs rest, scanArray f d first bs = some rest → rest.length < bs.length) := by
  intro f
  induction f with
  | zero =>
    refine ⟨?_, ?_, ?_⟩
    · intro d bs v rest h; simp [scanValue] at h
    · intro d first bs ms rest h; simp [scanObject] at h
    · intro d first bs rest h; simp [scanArray] at h
  | succ f ih =>
    obtain ⟨ihv, iho, iha⟩ := ih
    refine ⟨?_, ?_, ?_⟩
    · intro d bs v rest h
      cases bs with
      | nil => simp [scanValue] at h
      | cons c t =>
        have hsk := skipSpace_length t
        simp only [scanValue] at h
        split_ifs at h <;> simp only [Option.map_eq_some', Prod.mk.injEq] at h <;>
          obtain ⟨a, ha, -, rfl⟩ := h <;>
          first
            | exact Nat.lt_succ_of_le (Nat.le_trans (Nat.le_of_lt (iho _ _ _ _ _ ha)) hsk)
            | exact Nat.lt_succ_of_le (Nat.le_trans (Nat.le_of_lt (iha _ _ _ _ ha)) hsk)
            | exact Nat.lt_succ_of_le (scanNumber_length _ _ _ ha)
            | exact Nat.lt_succ_of_le (scanLiteral_length _ _ _ ha)
            | exact Nat.lt_succ_of_le (Nat.le_of_lt (scanString_length _ _ _ _ ha))
    · intro d first bs ms rest h
      cases bs with
      | nil => simp [scanObject] at h
      | cons c t =>
        simp only [scanObject] at h
        split_ifs at h
        · simp only [Option.some.injEq, Prod.mk.injEq] at h
          simp [← h.2]
        · rcases hs : scanString .inString t with _ | ⟨key, rest1⟩
          · simp [hs] at h
          rcases hk : skipSpace rest1 with _ | ⟨c1, rest2⟩
          · simp [hs, hk] at h
          simp only [hs, hk] at h
          split_ifs at h
          rcases hv : scanValue f d (skipSpace rest2) with _ | ⟨v, rest3⟩
          · simp [hv] at h
          rcases hk3 : skipSpace rest3 with _ | ⟨c2, rest4⟩
          · simp [hv, hk3] at h
          simp only [hv, hk3] at h
          have l1 := scanString_length _ _ _ _ hs
          have l2 := skipSpace_length rest1
          have l3 := skipSpace_length rest2
          have l4 := ihv _ _ _ _ hv
          have l5 := skipSpace_length rest3
          have l6 := skipSpace_length rest4
          rw [hk] at l2
          rw [hk3] at l5
          simp only [List.length_cons] at l2 l5 ⊢
          split_ifs at h
          · simp only [Option.map_eq_some', Prod.mk.injEq] at h
            obtain ⟨a, ha, -, rfl⟩ := h
            have := iho _ _ _ _ _ ha
            omega
          · simp only [Option.some.injEq, Prod.mk.injEq] at h
            rw [← h.2]; omega
    · intro d first bs rest h
      cases bs with
      | nil => simp [scanArray] at h
      | cons c t =>
        simp only [scanArray] at h
        split_ifs at h
        · simp only [Option.some.injEq] at h
          simp [← h]
        · rcases hv : scanValue f d (c :: t) with _ | ⟨v, rest1⟩
          · simp [hv] at h
          rcases hk : skipSpace rest1 with _ | ⟨c1, rest2⟩
          · simp [hv, hk] at h
          simp only [hv, hk] at h
          have l1 := ihv _ _ _ _ hv
          have l2 := skipSpace_length rest1
          have l3 := skipSpace_length rest2
          rw [hk] at l2
          simp only [List.length_cons] at l1 l2 ⊢
          split_ifs at h
          · have := iha _ _ _ _ h
            omega
          · simp only [Option.some.injEq] at h
            rw [← h]; omega


/-- One more unit of fuel than twice the length of the input changes nothing. -/
theorem scan_fuel : ∀ (f : Nat),
    (∀ d bs, 2 * bs.length < f → scanValue (f + 1) d bs = scanValue f d bs) ∧
    (∀ d first bs, 2 * bs.length + 1 < f →
      scanObject (f + 1) d first bs = scanObject f d first bs) ∧
    (∀ d first bs, 2 * bs.length + 1 < f →
      scanArray (f + 1) d first bs = scanArray f d first bs) := by
  intro f
  induction f with
  | zero =>
    exact ⟨fun d bs h => by omega, fun d first bs h => by omega, fun d first bs h => by omega⟩
  | succ f ih =>
    obtain ⟨ihv, iho, iha⟩ := ih
    refine ⟨?_, ?_, ?_⟩
    · intro d bs hlen
      cases bs with
      | nil => simp [scanValue]
      | cons c t =>
        have hsk := skipSpace_length t
        simp only [List.length_cons] at hlen
        have e1 := iho (d + 1) true (skipSpace t) (by omega)
        have e2 := iha (d + 1) true (skipSpace t) (by omega)
        simp only [scanValue, e1, e2]
    · intro d first bs hlen
      cases bs with
      | nil => simp [scanObject]
      | cons c t =>
        simp only [List.length_cons] at hlen
        simp only [scanObject]
        split_ifs
        · rfl
        · rcases hs : scanString .inString t with _ | ⟨key, rest1⟩
          · rfl
          rcases hk : skipSpace rest1 with _ | ⟨c1, rest2⟩
          · simp only [hk]
          simp only [hk]
          have l1 := scanString_length _ _ _ _ hs
          have l2 := skipSpace_length rest1
          have l3 := skipSpace_length rest2
          rw [hk] at l2
          simp only [List.length_cons] at l2
          split_ifs
          · rw [ihv d (skipSpace rest2) (by omega)]
            rcases hv : scanValue f d (skipSpace rest2) with _ | ⟨v, rest3⟩
            · rfl
            rcases hk3 : skipSpace rest3 with _ | ⟨c2, rest4⟩
            · simp only [hk3]
            simp only [hk3]
            have l4 := (scan_length f).1 _ _ _ _ hv
            have l5 := skipSpace_length rest3
            have l6 := skipSpace_length rest4
            rw [hk3] at l5
            simp only [List.length_cons] at l5
            rw [iho d false (skipSpace rest4) (by omega)]
          · rfl
        · rfl
    · intro d first bs hlen
      cases bs with
      | nil => simp [scanArray]
      | cons c t =>
        simp only [List.length_cons] at hlen
        simp only [scanArray]
        split_ifs
        · rfl
        · rw [ihv d (c :: t) (by simp only [List.length_cons]; omega)]
          rcases hv : scanValue f d (c :: t) with _ | ⟨v, rest1⟩
          · rfl
          rcases hk : skipSpace rest1 with _ | ⟨c1, rest2⟩
          · simp only [hk]
          simp only [hk]
          have l1 := (scan_length f).1 _ _ _ _ hv
          have l2 := skipSpace_length rest1
          have l3 := skipSpace_length rest2
          rw [hk] at l2
          simp only [List.length_cons] at l1 l2
          rw [iha d false (skipSpace rest2) (by omega)]

/-- More fuel than twice the length of the input does not change what the
scanner returns. -/
theorem scan_fuel_enough (n : Nat) : ∀ (f : Nat),
    (∀ d bs, 2 * bs.length < f → scanValue (f + n) d bs = scanValue f d bs) ∧
    (∀ d first bs, 2 * bs.length + 1 < f →
      scanObject (f + n) d first bs = scanObject f d first bs) := by
  induction n with
  | zero => exact fun _ => ⟨fun _ _ _ => rfl, fun _ _ _ _ => rfl⟩
  | succ n ih =>
    intro f
    refine ⟨fun d bs h => ?_, fun d first bs h => ?_⟩
    · rw [← (ih f).1 d bs h]
      exact (scan_fuel (f + n)).1 d bs (by omega)
    · rw [← (ih f).2 d first bs h]
      exact (scan_fuel (f + n)).2.1 d first bs (by omega)

/-- The bound `scanTop` puts on the recursion never cuts a scan short: any
larger bound gives the same result. -/
theorem scanTop_fuel_enough (data : Bytes) (n : Nat) :
    scanTopFuel (2 * data.length + 2 + n) data = scanTop data := by
  unfold scanTop scanTopFuel
  have hsk := skipSpace_length data
  rcases hd : skipSpace data with _ | ⟨c, rest⟩
  · rfl
  · rw [hd] at hsk
    simp only [List.length_cons] at hsk
    have hr := skipSpace_length rest
    simp only
    rw [(scan_fuel_enough n (2 * data.length + 2)).2 1 true (skipSpace rest) (by omega),
      (scan_fuel_enough n (2 * data.length + 2)).1 0 (c :: rest)
        (by simp only [List.length_cons]; omega)]

/-! ## The claims -/

/-- C2 (as stated, refuted): a `SavedResponse` whose body is the single byte
`0xFF` serialises to an object with the escape `\ufffd`, and deserialising
that gives the three bytes of U+FFFD, not the byte that was serialised. -/
theorem marshal_roundtrip_binary_body_differs :
    json.Marshal { Body := [0xFF], ContentType := [] }
        = .ok (ascii "\x7b\"string\":\"\\ufffd\",\"ContentType\":\"\"\x7d") ∧
      json.UnmarshalSavedResponse
          (ascii "\x7b\"string\":\"\\ufffd\",\"ContentType\":\"\"\x7d")
          { Body := [], ContentType := [] }
        = .ok { Body := [0xEF, 0xBF, 0xBD], ContentType := [] } ∧
      ({ Body := [0xEF, 0xBF, 0xBD], ContentType := [] } : SavedResponse)
        ≠ { Body := [0xFF], ContentType := [] } := by
  refine ⟨by rfl, by rfl, by decide⟩

/-- C2 (amended): serialisation round trip on text. For every `SavedResponse`
whose `Body` and `ContentType` are well-formed UTF-8, `json.Marshal` succeeds
and `json.Unmarshal` of its output into an empty `SavedResponse` succeeds and
yields the same value, byte for byte. -/
theorem marshal_roundtrip_utf8 (c : SavedResponse) (hb : utf8.Valid c.Body = true)
    (hc : utf8.Valid c.ContentType = true) :
    ∃ data, json.Marshal c = .ok data ∧
      json.UnmarshalSavedResponse data { Body := [], ContentType := [] } = .ok c :=
  Unmarshal_Marshal c hb hc { Body := [], ContentType := [] }

/-- C2 (witness): a body with a quote, a line break, `<`, a two-byte and a
three-byte rune (U+00E9, U+2028), and the content type `text/plain`. -/
theorem marshal_roundtrip_utf8_witness :
    ∃ data,
      json.Marshal
          { Body := [0x22, 0x0A, 0x3C, 0xC3, 0xA9, 0xE2, 0x80, 0xA8, 0x68, 0x69],
            ContentType := ascii "text/plain" } = .ok data ∧
        json.UnmarshalSavedResponse data { Body := [], ContentType := [] }
          = .ok { Body := [0x22, 0x0A, 0x3C, 0xC3, 0xA9, 0xE2, 0x80, 0xA8, 0x68, 0x69],
                  ContentType := ascii "text/plain" } :=
  marshal_roundtrip_utf8
    { Body := [0x22, 0x0A, 0x3C, 0xC3, 0xA9, 0xE2, 0x80, 0xA8, 0x68, 0x69],
      ContentType := ascii "text/plain" } (by decide) (by decide)

/-- C3: hit replay. When the body decodes, and the store answers the `Get` of
the request's key with a value that deserialises to `saved`, the handler
replies with status 200, the body `saved.Body` and the `Content-Type`
`saved.ContentType`; the lookup is its only effect, so there is no upstream
fetch and no store write. -/
theorem request_hit_replay {σ : Type} (h : Handler σ) (net : Upstream) (s : World σ)
    (body : Bytes) (request : Request) (hash : Nat) (val : Bytes) (saved : SavedResponse)
    (hdec : json.UnmarshalRequest body { URL := [] } = .ok request)
    (hhash : Hash request = .ok hash)
    (hget : (h.Redis.Get s.store (hashToStr hash)).2 = .ok val)
    (hval : json.UnmarshalSavedResponse val { Body := [], ContentType := [] } = .ok saved) :
    (h.request net http.newWriter { Body := .ok body } s).1.status = some 200 ∧
      (h.request net http.newWriter { Body := .ok body } s).1.body = saved.Body ∧
      http.headerGet (h.request net http.newWriter { Body := .ok body } s).1.header
        (ascii "Content-Type") = saved.ContentType ∧
      (h.request net http.newWriter { Body := .ok body } s).2.effects
        = Effect.redisGet (hashToStr hash) :: s.effects ∧
      fetchCount (h.request net http.newWriter { Body := .ok body } s).2.effects
        = fetchCount s.effects ∧
      storeWrites (h.request net http.newWriter { Body := .ok body } s).2.effects
        = storeWrites s.effects := by
  have hc := getCache_hit h hash s val saved hget hval
  obtain ⟨hw, he⟩ := request_hit h net s http.newWriter body request hash hdec hhash (by rw [hc])
  have hr := writeResponse_newWriter saved
  rw [hc] at hw
  rw [hw, he]
  exact ⟨hr.1, hr.2.1, hr.2.2, rfl, by simp [fetchCount], by simp [storeWrites]⟩

/-- C3 (witness): the store holds
`{"string":"hello","ContentType":"text/plain"}` under the key of
`http://u/x`; the body `{"url":"http://u/x"}` is answered with `hello` as
`text/plain`. -/
theorem request_hit_replay_witness :
    (cacheHandler.request exampleUpstream http.newWriter
        { Body := .ok (ascii "\x7b\"url\":\"http://u/x\"\x7d") } seededWorld).1.status
        = some 200 ∧
      (cacheHandler.request exampleUpstream http.newWriter
        { Body := .ok (ascii "\x7b\"url\":\"http://u/x\"\x7d") } seededWorld).1.body
        = ascii "hello" ∧
      http.headerGet (cacheHandler.request exampleUpstream http.newWriter
        { Body := .ok (ascii "\x7b\"url\":\"http://u/x\"\x7d") } seededWorld).1.header
        (ascii "Content-Type") = ascii "text/plain" ∧
      fetchCount (cacheHandler.request exampleUpstream http.newWriter
        { Body := .ok (ascii "\x7b\"url\":\"http://u/x\"\x7d") } seededWorld).2.effects = 0 :=
  have h := request_hit_replay cacheHandler exampleUpstream seededWorld
    (ascii "\x7b\"url\":\"http://u/x\"\x7d") { URL := ascii "http://u/x" }
    (hashOf { URL := ascii "http://u/x" })
    (ascii "\x7b\"string\":\"hello\",\"ContentType\":\"text/plain\"\x7d")
    { Body := ascii "hello", ContentType := ascii "text/plain" }
    (by rfl) (by rfl) (by rfl) (by rfl)
  ⟨h.1, h.2.1, h.2.2.1, h.2.2.2.2.1⟩

/-- C4: store failure tolerance. When the body decodes, the upstream fetch
completes, and the store's `Get` fails with any error or returns a value that
does not deserialise, then, whatever the store's `Set` does, the handler
performs the upstream fetch and replies with status 200, the upstream body
and the upstream content type. -/
theorem request_store_failure_tolerance {σ : Type} (h : Handler σ) (net : Upstream)
    (s : World σ) (body : Bytes) (request : Request) (hash : Nat) (resp : http.Response)
    (b : Bytes)
    (hdec : json.UnmarshalRequest body { URL := [] } = .ok request)
    (hhash : Hash request = .ok hash)
    (hstore : (∃ e, (h.Redis.Get s.store (hashToStr hash)).2 = .error e) ∨
      ∃ val e, (h.Redis.Get s.store (hashToStr hash)).2 = .ok val ∧
        json.UnmarshalSavedResponse val { Body := [], ContentType := [] } = .error e)
    (hnet : net request.URL = .ok resp) (hbody : resp.Body = .ok b) :
    (h.request net http.newWriter { Body := .ok body } s).1.status = some 200 ∧
      (h.request net http.newWriter { Body := .ok body } s).1.body = b ∧
      http.headerGet (h.request net http.newWriter { Body := .ok body } s).1.header
        (ascii "Content-Type") = http.headerGet resp.Header (ascii "Content-Type") ∧
      fetchCount (h.request net http.newWriter { Body := .ok body } s).2.effects
        = fetchCount s.effects + 1 := by
  have hmiss := getCache_miss h hash s hstore
  obtain ⟨hw, data, -, he⟩ :=
    request_miss_fetched h net s http.newWriter body request hash resp b hdec hhash hmiss hnet hbody
  have hr := writeResponse_newWriter
    { Body := b, ContentType := http.headerGet resp.Header (ascii "Content-Type") }
  rw [hw, he]
  exact ⟨hr.1, hr.2.1, hr.2.2, by simp [fetchCount]⟩

/-- C4 (witness): the store cannot be reached, so both `Get` and `Set` fail;
the body `{"url":"http://u/a"}` is still answered with the upstream's `A` as
`text/plain`. -/
theorem request_store_failure_tolerance_witness :
    (offlineHandler.request exampleUpstream http.newWriter
        { Body := .ok (ascii "\x7b\"url\":\"http://u/a\"\x7d") }
        { store := (), effects := [] }).1.status = some 200 ∧
      (offlineHandler.request exampleUpstream http.newWriter
        { Body := .ok (ascii "\x7b\"url\":\"http://u/a\"\x7d") }
        { store := (), effects := [] }).1.body = ascii "A" ∧
      http.headerGet (offlineHandler.request exampleUpstream http.newWriter
        { Body := .ok (ascii "\x7b\"url\":\"http://u/a\"\x7d") }
        { store := (), effects := [] }).1.header (ascii "Content-Type")
        = ascii "text/plain" :=
  have h := request_store_failure_tolerance offlineHandler exampleUpstream
    { store := (), effects := [] } (ascii "\x7b\"url\":\"http://u/a\"\x7d")
    { URL := ascii "http://u/a" } (hashOf { URL := ascii "http://u/a" })
    { StatusCode := 200, Header := [(ascii "Content-Type", ascii "text/plain")],
      Body := .ok (ascii "A") } (ascii "A")
    (by rfl) (by rfl) (Or.inl ⟨_, rfl⟩) (by rfl) (by rfl)
  ⟨h.1, h.2.1, h.2.2.1⟩

/-- C5: `getCache` has three disjoint outcomes, decided by the store's answer.
It returns `(v, true, nil)` exactly when the store returns a value that
deserialises to `v`; `(SavedResponse{}, false, nil)` exactly when the store
returns `redis.Nil`; `(SavedResponse{}, false, err)` with `err` not nil
exactly when the store returns another error or a value that does not
deserialise. Every call has one of the three shapes, and `ok = true` never
comes with an error. -/
theorem getCache_three_outcomes {σ : Type} (h : Handler σ) (hash : Nat) (s : World σ) :
    ((∀ v, (h.getCache hash s).2 = (v, true, none) ↔
        ∃ val, (h.Redis.Get s.store (hashToStr hash)).2 = .ok val ∧
          json.UnmarshalSavedResponse val { Body := [], ContentType := [] } = .ok v) ∧
      ((h.getCache hash s).2 = ({ Body := [], ContentType := [] }, false, none) ↔
        (h.Redis.Get s.store (hashToStr hash)).2 = .error .Nil) ∧
      ((∃ e, (h.getCache hash s).2 = ({ Body := [], ContentType := [] }, false, some e)) ↔
        ((∃ msg, (h.Redis.Get s.store (hashToStr hash)).2 = .error (.other msg)) ∨
          ∃ val e, (h.Redis.Get s.store (hashToStr hash)).2 = .ok val ∧
            json.UnmarshalSavedResponse val { Body := [], ContentType := [] } = .error e))) ∧
    ((∃ v, (h.getCache hash s).2 = (v, true, none)) ∨
      (h.getCache hash s).2 = ({ Body := [], ContentType := [] }, false, none) ∨
      ∃ e, (h.getCache hash s).2 = ({ Body := [], ContentType := [] }, false, some e)) ∧
    ¬ ((h.getCache hash s).2.2.1 = true ∧ (h.getCache hash s).2.2.2 ≠ none) := by
  unfold Handler.getCache
  rcases hget : (h.Redis.Get s.store (hashToStr hash)).2 with e | val
  · cases e <;> simp [hget]
  · rcases hun : json.UnmarshalSavedResponse val { Body := [], ContentType := [] } with e | v
    · simp [hget, hun]
    · simp [hget, hun]

/-- C6: terminal failures reply 500 and never write the store. First half,
for every handler, upstream and world: every request whose body is rejected
by the decoder is answered with status 500 and has no effect at all, so no
upstream fetch and no store command. Second half, for every handler, upstream
and world: every request that decodes, misses the cache and whose upstream
fetch fails (the request cannot be made, or the body cannot be read) is
answered with status 500 and performs no store `Set`. Neither half assumes
anything of the other. -/
theorem request_terminal_failures {σ : Type} (h : Handler σ) (net : Upstream) (s : World σ) :
    (∀ (bad : Bytes) (e : json.UnmarshalError),
      json.UnmarshalRequest bad { URL := [] } = .error e →
        (h.request net http.newWriter { Body := .ok bad } s).1.status = some 500 ∧
        (h.request net http.newWriter { Body := .ok bad } s).2.effects = s.effects ∧
        fetchCount (h.request net http.newWriter { Body := .ok bad } s).2.effects
          = fetchCount s.effects ∧
        storeWrites (h.request net http.newWriter { Body := .ok bad } s).2.effects
          = storeWrites s.effects) ∧
      (∀ (body : Bytes) (request : Request) (hash : Nat),
        json.UnmarshalRequest body { URL := [] } = .ok request →
        Hash request = .ok hash →
        (h.getCache hash s).2.2.1 = false →
        ((∃ err, net request.URL = .error err) ∨
          ∃ resp err, net request.URL = .ok resp ∧ resp.Body = .error err) →
          (h.request net http.newWriter { Body := .ok body } s).1.status = some 500 ∧
          storeWrites (h.request net http.newWriter { Body := .ok body } s).2.effects
            = storeWrites s.effects) := by
  constructor
  · intro bad e hbad
    obtain ⟨hw, hs⟩ := request_decode_failed h net s http.newWriter bad e hbad
    rw [hw, hs]
    simp [http.newWriter, http.ResponseWriter.WriteHeader]
  · intro body request hash hdec hhash hmiss hfail
    obtain ⟨hw, he⟩ :=
      request_miss_fetch_failed h net s http.newWriter body request hash hdec hhash hmiss hfail
    rw [hw, he]
    simp [http.newWriter, http.ResponseWriter.WriteHeader, storeWrites]

/-- C6 (witness): on an empty store, the body `not json` for the first half,
and the body `{"url":"http://unreachable"}`, whose upstream cannot be
reached, for the second. -/
theorem request_terminal_failures_witness :
    ((cacheHandler.request exampleUpstream http.newWriter
          { Body := .ok (ascii "not json") } emptyWorld).1.status = some 500 ∧
        (cacheHandler.request exampleUpstream http.newWriter
          { Body := .ok (ascii "not json") } emptyWorld).2.effects = emptyWorld.effects ∧
        fetchCount (cacheHandler.request exampleUpstream http.newWriter
          { Body := .ok (ascii "not json") } emptyWorld).2.effects
          = fetchCount emptyWorld.effects ∧
        storeWrites (cacheHandler.request exampleUpstream http.newWriter
          { Body := .ok (ascii "not json") } emptyWorld).2.effects
          = storeWrites emptyWorld.effects) ∧
      ((cacheHandler.request exampleUpstream http.newWriter
          { Body := .ok (ascii "\x7b\"url\":\"http://unreachable\"\x7d") }
          emptyWorld).1.status = some 500 ∧
        storeWrites (cacheHandler.request exampleUpstream http.newWriter
          { Body := .ok (ascii "\x7b\"url\":\"http://unreachable\"\x7d") }
          emptyWorld).2.effects = storeWrites emptyWorld.effects) :=
  ⟨(request_terminal_failures cacheHandler exampleUpstream emptyWorld).1
      (ascii "not json") .malformed (by rfl),
    (request_terminal_failures cacheHandler exampleUpstream emptyWorld).2
      (ascii "\x7b\"url\":\"http://unreachable\"\x7d") { URL := ascii "http://unreachable" }
      (hashOf { URL := ascii "http://unreachable" }) (by rfl) (by rfl) (by rfl)
      (Or.inl ⟨_, rfl⟩)⟩

/-- C7 (as stated, refuted): the bodies `{}` and `{"url":""}` are not rejected
by the decoder; both decode to a request with the empty URL. On an empty
store the handler then looks the key of the empty URL up and calls the
fetcher with the empty URL before it replies 500. -/
theorem decoder_accepts_missing_url :
    json.UnmarshalRequest (ascii "\x7b\x7d") { URL := [] } = .ok { URL := [] } ∧
      json.UnmarshalRequest (ascii "\x7b\"url\":\"\"\x7d") { URL := [] } = .ok { URL := [] } ∧
      (cacheHandler.request exampleUpstream http.newWriter
          { Body := .ok (ascii "\x7b\x7d") } emptyWorld).2.effects
        = [Effect.httpGet [], Effect.redisGet (cacheKey [])] ∧
      (cacheHandler.request exampleUpstream http.newWriter
          { Body := .ok (ascii "\x7b\x7d") } emptyWorld).1.status = some 500 := by
  refine ⟨by rfl, by rfl, by rfl, by rfl⟩

/-- C7 (amended): the decoder fails, and the handler replies 500 without
looking up the store or fetching upstream, when `json.Unmarshal` rejects the
bytes (`bad`). A body in which `url` is absent or empty is not rejected: it
decodes to the empty URL (so do `{}` and `{"url":""}`), and the handler goes
on to look the key of the empty URL up in the store. -/
theorem request_decoder_failure {σ : Type} (h : Handler σ) (net : Upstream) (s : World σ)
    (bad : Bytes) (e : json.UnmarshalError)
    (hbad : json.UnmarshalRequest bad { URL := [] } = .error e)
    (body : Bytes) (hash : Nat)
    (hdec : json.UnmarshalRequest body { URL := [] } = .ok { URL := [] })
    (hhash : Hash { URL := [] } = .ok hash) :
    ((h.request net http.newWriter { Body := .ok bad } s).1.status = some 500 ∧
        (h.request net http.newWriter { Body := .ok bad } s).2.effects = s.effects) ∧
      (∃ new, (h.request net http.newWriter { Body := .ok body } s).2.effects
        = new ++ Effect.redisGet (hashToStr hash) :: s.effects) ∧
      json.UnmarshalRequest (ascii "\x7b\x7d") { URL := [] } = .ok { URL := [] } ∧
      json.UnmarshalRequest (ascii "\x7b\"url\":\"\"\x7d") { URL := [] } = .ok { URL := [] } := by
  obtain ⟨hw, hs⟩ := request_decode_failed h net s http.newWriter bad e hbad
  refine ⟨?_, ?_, by rfl, by rfl⟩
  · rw [hw, hs]
    simp [http.newWriter, http.ResponseWriter.WriteHeader]
  · rcases request_effects_cases h net s http.newWriter body _ hash hdec hhash with
      he | he | ⟨data, he⟩
    · exact ⟨[], by simpa using he⟩
    · exact ⟨[Effect.httpGet []], by simpa using he⟩
    · exact ⟨[Effect.redisSet (hashToStr hash) data h.Expiry, Effect.httpGet []],
        by simpa using he⟩

/-- C7 (witness): the rejected body `not json` and the accepted body `{}`, on
an empty store. -/
theorem request_decoder_failure_witness :
    ((cacheHandler.request exampleUpstream http.newWriter
          { Body := .ok (ascii "not json") } emptyWorld).1.status = some 500 ∧
        (cacheHandler.request exampleUpstream http.newWriter
          { Body := .ok (ascii "not json") } emptyWorld).2.effects = emptyWorld.effects) ∧
      (∃ new, (cacheHandler.request exampleUpstream http.newWriter
          { Body := .ok (ascii "\x7b\x7d") } emptyWorld).2.effects
        = new ++ Effect.redisGet (cacheKey []) :: emptyWorld.effects) ∧
      json.UnmarshalRequest (ascii "\x7b\x7d") { URL := [] } = .ok { URL := [] } ∧
      json.UnmarshalRequest (ascii "\x7b\"url\":\"\"\x7d") { URL := [] } = .ok { URL := [] } :=
  request_decoder_failure cacheHandler exampleUpstream emptyWorld
    (ascii "not json") .malformed (by rfl) (ascii "\x7b\x7d") (hashOf { URL := [] })
    (by rfl) (by rfl)

/-- C8: equivalent requests share a cache key. Whenever two bodies decode to
the same URL, then in any two invocations (any handlers, stores and
upstreams) every store command either invocation performs uses one and the
same key, `hashToStr` of the hash of that URL, and each invocation starts
with the `Get` of that key. -/
theorem request_key_of_url {σ τ : Type} (h1 : Handler σ) (h2 : Handler τ)
    (net1 net2 : Upstream) (s1 : World σ) (s2 : World τ) (body1 body2 url : Bytes) (hash : Nat)
    (hdec1 : json.UnmarshalRequest body1 { URL := [] } = .ok { URL := url })
    (hdec2 : json.UnmarshalRequest body2 { URL := [] } = .ok { URL := url })
    (hhash : Hash { URL := url } = .ok hash) :
    ∃ new1 new2,
      (h1.request net1 http.newWriter { Body := .ok body1 } s1).2.effects = new1 ++ s1.effects ∧
      (h2.request net2 http.newWriter { Body := .ok body2 } s2).2.effects = new2 ++ s2.effects ∧
      new1.getLast? = some (Effect.redisGet (hashToStr hash)) ∧
      new2.getLast? = some (Effect.redisGet (hashToStr hash)) ∧
      (∀ k ∈ storeKeys new1, k = hashToStr hash) ∧
      (∀ k ∈ storeKeys new2, k = hashToStr hash) := by
  have key : ∀ {ρ : Type} (h : Handler ρ) (net : Upstream) (s : World ρ) (body : Bytes),
      json.UnmarshalRequest body { URL := [] } = .ok { URL := url } →
      ∃ new, (h.request net http.newWriter { Body := .ok body } s).2.effects = new ++ s.effects ∧
        new.getLast? = some (Effect.redisGet (hashToStr hash)) ∧
        ∀ k ∈ storeKeys new, k = hashToStr hash := by
    intro ρ h net s body hdec
    rcases request_effects_cases h net s http.newWriter body _ hash hdec hhash with
      he | he | ⟨data, he⟩
    · exact ⟨[Effect.redisGet (hashToStr hash)], by simpa using he, by simp, by simp [storeKeys]⟩
    · exact ⟨[Effect.httpGet url, Effect.redisGet (hashToStr hash)], by simpa using he, by simp,
        by simp [storeKeys]⟩
    · exact ⟨[Effect.redisSet (hashToStr hash) data h.Expiry, Effect.httpGet url,
        Effect.redisGet (hashToStr hash)], by simpa using he, by simp, by simp [storeKeys]⟩
  obtain ⟨new1, e1, l1, k1⟩ := key h1 net1 s1 body1 hdec1
  obtain ⟨new2, e2, l2, k2⟩ := key h2 net2 s2 body2 hdec2
  exact ⟨new1, new2, e1, e2, l1, l2, k1, k2⟩

/-- C8 (witness): the body `{"url":"http://u/y"}` on a store with expiry, and
a body with other whitespace, an unrecognised member before `url` and the
field name in upper case, on a store that cannot be reached. -/
theorem request_key_of_url_witness :
    ∃ new1 new2,
      (cacheHandler.request exampleUpstream http.newWriter
        { Body := .ok (ascii "\x7b\"url\":\"http://u/y\"\x7d") } emptyWorld).2.effects
        = new1 ++ emptyWorld.effects ∧
      (offlineHandler.request exampleUpstream http.newWriter
        { Body := .ok
            (ascii " \x7b \"extra\" : [1, \x7b\"a\": null\x7d, -2.5e3],\n \"URL\" : \"http://u/y\" \x7d ") }
        { store := (), effects := [] }).2.effects = new2 ++ [] ∧
      new1.getLast? = some (Effect.redisGet (cacheKey (ascii "http://u/y"))) ∧
      new2.getLast? = some (Effect.redisGet (cacheKey (ascii "http://u/y"))) ∧
      (∀ k ∈ storeKeys new1, k = cacheKey (ascii "http://u/y")) ∧
      (∀ k ∈ storeKeys new2, k = cacheKey (ascii "http://u/y")) :=
  request_key_of_url cacheHandler offlineHandler exampleUpstream exampleUpstream emptyWorld
    { store := (), effects := [] } (ascii "\x7b\"url\":\"http://u/y\"\x7d")
    (ascii " \x7b \"extra\" : [1, \x7b\"a\": null\x7d, -2.5e3],\n \"URL\" : \"http://u/y\" \x7d ")
    (ascii "http://u/y") (hashOf { URL := ascii "http://u/y" }) (by rfl) (by rfl) (by rfl)

/-- C9: key rendering. For every fingerprint `h` below `2 ^ 64`, `hashToStr h`
consists of characters `0-9` and `a-f` only, has between 1 and 16
characters, is `"0"` for 0 and does not start with `0` otherwise, and reads
back in base 16 as `h`; so two fingerprints with the same rendering are
equal. -/
theorem hashToStr_base16 (h : Nat) (hh : h < 2 ^ 64) :
    (∀ c ∈ hashToStr h, (48 ≤ c ∧ c ≤ 57) ∨ (97 ≤ c ∧ c ≤ 102)) ∧
      1 ≤ (hashToStr h).length ∧ (hashToStr h).length ≤ 16 ∧
      (h = 0 → hashToStr h = ascii "0") ∧
      (h ≠ 0 → (hashToStr h).head? ≠ some 48) ∧
      parseHex (hashToStr h) = some h ∧
      ∀ h', h' < 2 ^ 64 → hashToStr h' = hashToStr h → h' = h := by
  have spec : ∀ u, u < 2 ^ 64 → ∃ ds, hashToStr u = ds ∧ 1 ≤ ds.length ∧ ds.length ≤ 16 ∧
      (∀ c ∈ ds, (48 ≤ c ∧ c ≤ 57) ∨ (97 ≤ c ∧ c ≤ 102)) ∧
      parseHex ds = some u ∧ (u = 0 → ds = [48]) ∧ (u ≠ 0 → ds.head? ≠ some 48) := by
    intro u hu
    obtain ⟨ds, hds, hl1, hl2, hc, hp, hz, hnz⟩ :=
      formatBits_spec 16 65 u [] (by norm_num) (by norm_num) (by norm_num at hu ⊢; exact hu)
    refine ⟨ds, by simpa [hashToStr] using hds, hl1, hl2, hc, ?_, hz, hnz⟩
    have := hp 0 []
    simp only [List.append_nil, zero_mul, zero_add, parseHexFrom] at this
    cases ds with
    | nil => simp at hl1
    | cons d ds => simpa [parseHex] using this
  obtain ⟨ds, hds, hl1, hl2, hc, hp, hz, hnz⟩ := spec h hh
  refine ⟨by rw [hds]; exact hc, by rw [hds]; exact hl1, by rw [hds]; exact hl2,
    by rw [hds]; exact hz, by rw [hds]; exact hnz, by rw [hds]; exact hp, ?_⟩
  intro h' hh' heq
  obtain ⟨ds', hds', -, -, -, hp', -, -⟩ := spec h' hh'
  rw [hds, hds'] at heq
  rw [heq, hp] at hp'
  exact (Option.some.inj hp').symm

/-- C9 (witness): the largest fingerprint, `2 ^ 64 - 1`, rendered as sixteen
`f`. -/
theorem hashToStr_base16_witness :
    hashToStr 18446744073709551615 = ascii "ffffffffffffffff" ∧
      (hashToStr 18446744073709551615).length ≤ 16 ∧
      parseHex (hashToStr 18446744073709551615) = some 18446744073709551615 :=
  have h := hashToStr_base16 18446744073709551615 (by decide)
  ⟨by rfl, h.2.2.1, h.2.2.2.2.2.1⟩

end RequestCache
